import Mathlib

/-!
Verification development for the `project-sandbox` falling-sand engine
(crates `gridmath` and `sandworld`).  Rust source is shallowly embedded:

* `i32` values are `Int`; Rust's truncating `/` and `%` are `Int.tdiv` /
  `Int.tmod`; unsigned machine words are `Nat` with explicit `% 2 ^ w`
  where wrap-around matters.
* Rust casts are explicit conversion functions (`i32AsU64`, `u64AsI32`,
  `i32AsU8`, ...) defined by the two's-complement semantics of `as`.
* Stateful code becomes explicit state passing; the thread-local RNG is an
  oracle (a stream of booleans / naturals) supplied as a parameter.
* Fallible code (`Option::unwrap` on data that can be `None`) returns
  `Option`, `none` standing for the panic.
-/

set_option maxRecDepth 4096

/-! ### gridmath/src/gridvec.rs -/

structure GridVec where
  x : Int
  y : Int
deriving DecidableEq, Repr

namespace GridVec

/-- `GridVec::new` -/
def new (x y : Int) : GridVec := ⟨x, y⟩

/-- `ops::Add for GridVec` -/
def addv (a b : GridVec) : GridVec := ⟨a.x + b.x, a.y + b.y⟩

/-- `ops::Sub for GridVec` -/
def subv (a b : GridVec) : GridVec := ⟨a.x - b.x, a.y - b.y⟩

/-- `ops::Mul<i32> for GridVec` -/
def muls (a : GridVec) (s : Int) : GridVec := ⟨a.x * s, a.y * s⟩

/-- `ops::Div<i32> for GridVec` (Rust `/` on `i32` truncates toward zero) -/
def divs (a : GridVec) (s : Int) : GridVec := ⟨Int.tdiv a.x s, Int.tdiv a.y s⟩

/-- `ops::Rem<i32> for GridVec` — note the source computes `self.y / rhs`
    (a quotient), not `self.y % rhs`, in the `y` component. -/
def rems (a : GridVec) (s : Int) : GridVec := ⟨Int.tmod a.x s, Int.tdiv a.y s⟩

/-- `GridVec::manhattan_distance` -/
def manhattan_distance (a b : GridVec) : Int :=
  (a.x - b.x).natAbs + (a.y - b.y).natAbs

/-- `GridVec::manhattan_length` -/
def manhattan_length (a : GridVec) : Int := (a.x.natAbs : Int) + a.y.natAbs

/-- `GridVec::is_adjacent` -/
def is_adjacent (a b : GridVec) : Bool :=
  if manhattan_distance a b = 1 then true
  else if manhattan_distance a b = 2 then (a.x - b.x).natAbs = 1
  else false

end GridVec

/-- Rust `i as u64` for an `i32`-ranged `i : Int`: sign-extension, i.e. the
    residue of `i` modulo `2^64`. -/
def i32AsU64 (i : Int) : Nat := (i % (18446744073709551616 : Int)).toNat

/-- Rust `<< 32` on `u64`. -/
def u64Shl32 (n : Nat) : Nat := (n * 4294967296) % 18446744073709551616

/-- Rust `n as i32` for `n : u64`: truncate to the low 32 bits and
    reinterpret as two's complement. -/
def u64AsI32 (n : Nat) : Int :=
  if n % 4294967296 < 2147483648 then ((n % 4294967296 : Nat) : Int)
  else ((n % 4294967296 : Nat) : Int) - 4294967296

namespace GridVec

/-- `GridVec::combined`: `self.x as u64 | (self.y as u64) << 32`. -/
def combined (v : GridVec) : Nat :=
  i32AsU64 v.x ||| u64Shl32 (i32AsU64 v.y)

/-- `GridVec::decombined`. -/
def decombined (combo : Nat) : GridVec :=
  GridVec.new
    (u64AsI32 (combo &&& 0xFFFFFFFF))
    (u64AsI32 ((combo &&& 0xFFFFFFFF00000000) >>> 32))

end GridVec

/-! Bit-splitting helpers for the `combined`/`decombined` analysis. -/

theorem testBit_split (h l i : Nat) (hl : l < 2 ^ 32) :
    (2 ^ 32 * h + l).testBit i =
      if i < 32 then l.testBit i else h.testBit (i - 32) := by
  rcases lt_or_ge i 32 with hi | hi
  · rw [if_pos hi, Nat.testBit_to_div_mod, Nat.testBit_to_div_mod]
    have hpow : (2 : Nat) ^ 32 = 2 ^ i * 2 ^ (32 - i) := by
      rw [← pow_add]; congr 1; omega
    have hdiv : (2 ^ 32 * h + l) / 2 ^ i = 2 ^ (32 - i) * h + l / 2 ^ i := by
      rw [hpow, mul_assoc, Nat.mul_add_div (Nat.pos_pow_of_pos i (by norm_num))]
    rw [hdiv]
    have hmod : (2 ^ (32 - i) * h + l / 2 ^ i) % 2 = (l / 2 ^ i) % 2 := by
      have h1 : 32 - i = (32 - i - 1) + 1 := by omega
      rw [h1, pow_succ]
      have h2 : 2 ^ (32 - i - 1) * 2 * h = 2 * (2 ^ (32 - i - 1) * h) := by ring
      rw [h2]
      omega
    rw [hmod]
  · rw [if_neg (by omega), Nat.testBit_to_div_mod, Nat.testBit_to_div_mod]
    have hpow : (2 : Nat) ^ i = 2 ^ 32 * 2 ^ (i - 32) := by
      rw [← pow_add]; congr 1; omega
    have hdiv : (2 ^ 32 * h + l) / 2 ^ i = h / 2 ^ (i - 32) := by
      rw [hpow, ← Nat.div_div_eq_div_mul,
        Nat.mul_add_div (by norm_num : (0:Nat) < 2 ^ 32), Nat.div_eq_of_lt hl,
        Nat.add_zero]
    rw [hdiv]

theorem split_lor (ah al bh bl : Nat) (hal : al < 2 ^ 32) (hbl : bl < 2 ^ 32) :
    ((2 ^ 32 * ah + al) ||| (2 ^ 32 * bh + bl)) =
      2 ^ 32 * (ah ||| bh) + (al ||| bl) := by
  have hl : (al ||| bl) < 2 ^ 32 := Nat.or_lt_two_pow hal hbl
  apply Nat.eq_of_testBit_eq
  intro i
  rw [Nat.testBit_lor, testBit_split _ _ _ hal, testBit_split _ _ _ hbl,
    testBit_split _ _ _ hl]
  rcases lt_or_ge i 32 with hi | hi
  · simp only [if_pos hi, Nat.testBit_lor]
  · simp only [if_neg (by omega : ¬ i < 32), Nat.testBit_lor]

theorem land_low_mask (n : Nat) : (n &&& 0xFFFFFFFF) = n % 2 ^ 32 := by
  apply Nat.eq_of_testBit_eq
  intro i
  rw [Nat.testBit_land, Nat.testBit_mod_two_pow]
  have hm : (0xFFFFFFFF : Nat) = 2 ^ 32 - 1 := by norm_num
  rw [hm, Nat.testBit_two_pow_sub_one]
  exact Bool.and_comm _ _

theorem land_high_mask_shift (n : Nat) :
    ((n &&& 0xFFFFFFFF00000000) >>> 32) = (n / 2 ^ 32) % 2 ^ 32 := by
  apply Nat.eq_of_testBit_eq
  intro i
  rw [Nat.testBit_shiftRight, Nat.testBit_land, Nat.testBit_mod_two_pow]
  have hmask : (0xFFFFFFFF00000000 : Nat) = 2 ^ 32 * (2 ^ 32 - 1) + 0 := by
    norm_num
  rw [hmask, testBit_split _ _ _ (by norm_num), ← Nat.shiftRight_eq_div_pow,
    Nat.testBit_shiftRight]
  rw [if_neg (by omega : ¬ 32 + i < 32), Nat.add_sub_cancel_left,
    Nat.testBit_two_pow_sub_one]
  rcases lt_or_ge i 32 with hi | hi
  · simp [hi, Bool.and_comm]
  · have h2 : ¬ i < 32 := by omega
    simp [h2]

theorem lor_ones_left (m : Nat) (hm : m < 2 ^ 32) :
    ((2 ^ 32 - 1) ||| m) = 2 ^ 32 - 1 := by
  apply Nat.eq_of_testBit_eq
  intro i
  rw [Nat.testBit_lor, Nat.testBit_two_pow_sub_one]
  rcases lt_or_ge i 32 with hi | hi
  · simp [hi]
  · have h2 : ¬ i < 32 := by omega
    have hmb : m.testBit i = false := by
      rw [← Nat.mod_eq_of_lt hm, Nat.testBit_mod_two_pow]
      simp [h2]
    simp [hmb, h2]

/- ---------------------------------------------------------------------- -/
/- Claims C10 and C3                                                       -/
/- ---------------------------------------------------------------------- -/

/-- **C10.** For every `GridVec` `v` and nonzero scalar `s`, the remainder
    operator `v % s` returns `GridVec { x: v.x % s, y: v.y / s }`: the `y`
    component is the truncated quotient, not a remainder, so the operator
    is not a componentwise modulo (witnessed at `v = (3, 7)`, `s = 2`). -/
theorem c10_rem_is_mod_x_div_y (v : GridVec) (s : Int) (hs : s ≠ 0) :
    GridVec.rems v s = ⟨Int.tmod v.x s, Int.tdiv v.y s⟩ ∧
    ∃ w : GridVec, ∃ t : Int,
      t ≠ 0 ∧ GridVec.rems w t ≠ ⟨Int.tmod w.x t, Int.tmod w.y t⟩ := by
  have : s ≠ 0 := hs
  exact ⟨rfl, ⟨3, 7⟩, 2, by decide, by decide⟩

theorem c10_rem_is_mod_x_div_y_witness :
    (2 : Int) ≠ 0 ∧
    (GridVec.rems ⟨3, 7⟩ 2 = ⟨Int.tmod 3 2, Int.tdiv 7 2⟩ ∧
      ∃ w : GridVec, ∃ t : Int,
        t ≠ 0 ∧ GridVec.rems w t ≠ ⟨Int.tmod w.x t, Int.tmod w.y t⟩) :=
  ⟨by decide, c10_rem_is_mod_x_div_y ⟨3, 7⟩ 2 (by decide)⟩

/-- **C3, counterexample.** The round trip fails at `(x, y) = (-1, 0)`:
    `x as u64` sign-extends, so the OR floods the high word with ones and
    `decombined` recovers `y = -1`. -/
theorem c3_combined_not_invertible_counterexample :
    GridVec.decombined (GridVec.combined (GridVec.new (-1) 0)) ≠
      GridVec.new (-1) 0 ∧
    GridVec.decombined (GridVec.combined (GridVec.new (-1) 0)) =
      GridVec.new (-1) (-1) := by
  constructor
  · decide
  · decide

/-- **C3, amended.** For 32-bit coordinates, `decombined ∘ combined` always
    recovers `x`, but recovers `y` only when `x ≥ 0` (sign extension of a
    negative `x` floods the high 32 bits, so `y` comes back as `-1`). -/
theorem c3_combined_decombined_characterization (x y : Int)
    (hx0 : -2147483648 ≤ x) (hx1 : x < 2147483648)
    (hy0 : -2147483648 ≤ y) (hy1 : y < 2147483648) :
    GridVec.decombined (GridVec.combined (GridVec.new x y)) =
      GridVec.new x (if 0 ≤ x then y else -1) := by
  have hp32 : (2:Nat) ^ 32 = 4294967296 := by norm_num
  -- low 32 bits of the sign-extension of y
  set yLo : Nat := (i32AsU64 y) % 4294967296 with hyLo
  have hyLoLt : yLo < 2 ^ 32 := by rw [hp32]; exact Nat.mod_lt _ (by norm_num)
  have hyLoVal : yLo = (y % (4294967296 : Int)).toNat := by
    rw [hyLo]
    unfold i32AsU64
    omega
  have hshl : u64Shl32 (i32AsU64 y) = 2 ^ 32 * yLo + 0 := by
    unfold u64Shl32
    rw [hyLo, Nat.add_zero, hp32,
      show (18446744073709551616 : Nat) = 4294967296 * 4294967296 by norm_num,
      Nat.mul_mod_mul_right]
    ring
  -- split the sign extension of x into 32-bit halves
  have hxsplit : (0 ≤ x ∧ i32AsU64 x = 2 ^ 32 * 0 + x.toNat ∧ x.toNat < 2 ^ 32) ∨
      (x < 0 ∧ i32AsU64 x = 2 ^ 32 * (2 ^ 32 - 1) + (x + 4294967296).toNat ∧
        (x + 4294967296).toNat < 2 ^ 32) := by
    unfold i32AsU64
    rcases le_or_lt 0 x with hv | hv
    · exact Or.inl ⟨hv, by omega, by omega⟩
    · exact Or.inr ⟨hv, by omega, by omega⟩
  have hcd : ∀ hi lo : Nat, lo < 2 ^ 32 → hi < 2 ^ 32 →
      GridVec.decombined (2 ^ 32 * hi + lo) =
        GridVec.new (u64AsI32 lo) (u64AsI32 hi) := by
    intro hi lo hlo hhi
    unfold GridVec.decombined
    rw [land_low_mask, land_high_mask_shift]
    congr 1
    · have : (2 ^ 32 * hi + lo) % 2 ^ 32 = lo := by
        rw [Nat.mul_add_mod, Nat.mod_eq_of_lt hlo]
      rw [this]
    · have : (2 ^ 32 * hi + lo) / 2 ^ 32 = hi := by
        rw [Nat.mul_add_div (by norm_num), Nat.div_eq_of_lt hlo, Nat.add_zero]
      rw [this, Nat.mod_eq_of_lt hhi]
  rcases hxsplit with ⟨hx, hsp, hlt⟩ | ⟨hx, hsp, hlt⟩
  · -- x ≥ 0 : high half of x is zero, y comes back intact
    have hcomb : GridVec.combined (GridVec.new x y) = 2 ^ 32 * yLo + x.toNat := by
      unfold GridVec.combined
      simp only [GridVec.new]
      rw [hshl, hsp, split_lor _ _ _ _ hlt (by norm_num)]
      simp
    rw [hcomb, hcd _ _ hlt hyLoLt, if_pos hx]
    unfold u64AsI32 GridVec.new
    simp only [GridVec.mk.injEq]
    constructor
    · split <;> omega
    · rw [hyLoVal]
      split <;> omega
  · -- x < 0 : sign extension fills the high half with ones, y is lost
    have hcomb : GridVec.combined (GridVec.new x y) =
        2 ^ 32 * (2 ^ 32 - 1) + (x + 4294967296).toNat := by
      unfold GridVec.combined
      simp only [GridVec.new]
      rw [hshl, hsp, split_lor _ _ _ _ hlt (by norm_num),
        lor_ones_left _ hyLoLt]
      simp
    rw [hcomb, hcd _ _ hlt (by norm_num), if_neg (by omega)]
    unfold u64AsI32 GridVec.new
    simp only [GridVec.mk.injEq]
    constructor
    · split <;> omega
    · split <;> omega

/-- Witness for C3's amended theorem at `(x, y) = (7, -5)`. -/
theorem c3_combined_decombined_characterization_witness :
    (-2147483648 ≤ (7:Int) ∧ (7:Int) < 2147483648 ∧
      -2147483648 ≤ (-5:Int) ∧ (-5:Int) < 2147483648) ∧
    GridVec.decombined (GridVec.combined (GridVec.new 7 (-5))) =
      GridVec.new 7 (if (0:Int) ≤ 7 then -5 else -1) :=
  ⟨by decide,
    c3_combined_decombined_characterization 7 (-5) (by decide) (by decide)
      (by decide) (by decide)⟩

/-! ### gridmath/src/gridbounds.rs -/

structure GridBounds where
  bottom_left : GridVec
  top_right : GridVec
deriving DecidableEq, Repr

namespace GridBounds

/-- `GridBounds::new` (center, half-extent form). -/
def newCenter (center half_extent : GridVec) : GridBounds :=
  ⟨center.subv half_extent, center.addv half_extent⟩

/-- `GridBounds::new_from_corner`. -/
def new_from_corner (bl size : GridVec) : GridBounds := ⟨bl, bl.addv size⟩

/-- `GridBounds::new_from_extents`. -/
def new_from_extents (bl tr : GridVec) : GridBounds := ⟨bl, tr⟩

def bottom (b : GridBounds) : Int := b.bottom_left.y
def left (b : GridBounds) : Int := b.bottom_left.x
def top (b : GridBounds) : Int := b.top_right.y
def right (b : GridBounds) : Int := b.top_right.x

/-- `GridBounds::width`: `(top_right.x - bottom_left.x) as u32 + 1`,
    computed in `u32` arithmetic. -/
def width (b : GridBounds) : Nat :=
  (((b.top_right.x - b.bottom_left.x) % 4294967296).toNat + 1) % 4294967296

/-- `GridBounds::height`. -/
def height (b : GridBounds) : Nat :=
  (((b.top_right.y - b.bottom_left.y) % 4294967296).toNat + 1) % 4294967296

/-- `GridBounds::center` (componentwise truncated division by 2). -/
def center (b : GridBounds) : GridVec := (b.top_right.addv b.bottom_left).divs 2

/-- `GridBounds::extent`. -/
def extent (b : GridBounds) : GridVec := b.top_right.subv b.bottom_left

/-- `GridBounds::half_extent`. -/
def half_extent (b : GridBounds) : GridVec := b.extent.divs 2

/-- `GridBounds::contains` — inclusive on all four edges. -/
def contains (b : GridBounds) (p : GridVec) : Bool :=
  decide (b.left ≤ p.x) && decide (p.x ≤ b.right) &&
  decide (b.bottom ≤ p.y) && decide (p.y ≤ b.top)

/-- `GridBounds::area`. -/
def area (b : GridBounds) : Nat := b.width * b.height

/-- `GridBounds::union`. -/
def union (a b : GridBounds) : GridBounds :=
  ⟨⟨min a.bottom_left.x b.bottom_left.x, min a.bottom_left.y b.bottom_left.y⟩,
   ⟨max a.top_right.x b.top_right.x, max a.top_right.y b.top_right.y⟩⟩

/-- `GridBounds::option_union`. -/
def option_union : Option GridBounds → Option GridBounds → Option GridBounds
  | none, none => none
  | some a, some b => some (a.union b)
  | some a, none => some a
  | none, some b => some b

/-- `GridBounds::overlaps` (via centers and integer half-extents). -/
def overlaps (a b : GridBounds) : Bool :=
  let dx := b.center.x - a.center.x
  let px := (b.half_extent.x + a.half_extent.x) - dx.natAbs
  if px ≤ 0 then false
  else
    let dy := b.center.y - a.center.y
    let py := (b.half_extent.y + a.half_extent.y) - dy.natAbs
    if py ≤ 0 then false else true

/-- `GridBounds::intersect`. -/
def intersect (a b : GridBounds) : Option GridBounds :=
  let dx := b.center.x - a.center.x
  let px := (b.half_extent.x + a.half_extent.x) - dx.natAbs
  if px ≤ 0 then none
  else
    let dy := b.center.y - a.center.y
    let py := (b.half_extent.y + a.half_extent.y) - dy.natAbs
    if py ≤ 0 then none
    else some ⟨⟨max a.bottom_left.x b.bottom_left.x, max a.bottom_left.y b.bottom_left.y⟩,
               ⟨min a.top_right.x b.top_right.x, min a.top_right.y b.top_right.y⟩⟩

end GridBounds

/-- The run of `GridIterator::next` calls from state `cur` (the iterator
    yields `current` after mutating it; `None` ends the run). -/
def gridIterList (b : GridBounds) (cur : GridVec) : List GridVec :=
  if h1 : cur.x + 1 ≥ b.top_right.x then
    if h2 : cur.y + 1 ≥ b.top_right.y then []
    else ⟨b.bottom_left.x, cur.y + 1⟩ :: gridIterList b ⟨b.bottom_left.x, cur.y + 1⟩
  else ⟨cur.x + 1, cur.y⟩ :: gridIterList b ⟨cur.x + 1, cur.y⟩
termination_by ((b.top_right.y - cur.y).toNat, (b.top_right.x - cur.x).toNat)
decreasing_by
  · apply Prod.Lex.left
    dsimp only
    omega
  · apply Prod.Lex.right
    dsimp only
    omega

/-- `GridBounds::iter`: starts at `bottom_left + (-1, 0)`. -/
def gridIter (b : GridBounds) : List GridVec :=
  gridIterList b (b.bottom_left.addv ⟨-1, 0⟩)

theorem gridIterList_step (b : GridBounds) (cx cy : Int) :
    gridIterList b ⟨cx, cy⟩ =
      if cx + 1 ≥ b.top_right.x then
        if cy + 1 ≥ b.top_right.y then []
        else ⟨b.bottom_left.x, cy + 1⟩ :: gridIterList b ⟨b.bottom_left.x, cy + 1⟩
      else ⟨cx + 1, cy⟩ :: gridIterList b ⟨cx + 1, cy⟩ := by
  rw [gridIterList]
  rfl

/-- `n` cells starting at `(x0, y)` walking right. -/
def rowList (x0 y : Int) : Nat → List GridVec
  | 0 => []
  | n + 1 => ⟨x0, y⟩ :: rowList (x0 + 1) y n

/-- Rows stacked bottom-to-top, each a full left-to-right row of the
    half-open rectangle. -/
def rowsList (b : GridBounds) (y : Int) : Nat → List GridVec
  | 0 => []
  | n + 1 =>
      rowList b.bottom_left.x y (b.top_right.x - b.bottom_left.x).toNat ++
        rowsList b (y + 1) n

/-- The row-major enumeration of the half-open rectangle
    `[bottom_left.x, top_right.x) × [bottom_left.y, top_right.y)`. -/
def gridIterSpec (b : GridBounds) : List GridVec :=
  rowsList b b.bottom_left.y (b.top_right.y - b.bottom_left.y).toNat

theorem rowList_succ (x0 y : Int) (n : Nat) :
    rowList x0 y (n + 1) = ⟨x0, y⟩ :: rowList (x0 + 1) y n := rfl

theorem rowsList_succ (b : GridBounds) (y : Int) (n : Nat) :
    rowsList b y (n + 1) =
      rowList b.bottom_left.x y (b.top_right.x - b.bottom_left.x).toNat ++
        rowsList b (y + 1) n := rfl

theorem mem_rowList (x0 y : Int) (n : Nat) (p : GridVec) :
    p ∈ rowList x0 y n ↔ (x0 ≤ p.x ∧ p.x < x0 + n ∧ p.y = y) := by
  induction n generalizing x0 with
  | zero =>
    simp only [rowList, List.not_mem_nil, false_iff]
    push_cast
    omega
  | succ n ih =>
    simp only [rowList_succ, List.mem_cons, ih (x0 + 1)]
    constructor
    · rintro (rfl | ⟨h1, h2, h3⟩)
      · dsimp only
        refine ⟨by omega, by push_cast; omega, rfl⟩
      · exact ⟨by omega, by push_cast at h2 ⊢; omega, h3⟩
    · rintro ⟨h1, h2, h3⟩
      rcases eq_or_lt_of_le h1 with heq | hlt
      · left
        have hp : p = ⟨p.x, p.y⟩ := rfl
        rw [hp, ← heq, h3]
      · right
        exact ⟨by omega, by push_cast at h2 ⊢; omega, h3⟩

theorem mem_rowsList (b : GridBounds) (y : Int) (n : Nat) (p : GridVec) :
    p ∈ rowsList b y n ↔
      (b.bottom_left.x ≤ p.x ∧
        p.x < b.bottom_left.x + (b.top_right.x - b.bottom_left.x).toNat ∧
        y ≤ p.y ∧ p.y < y + n) := by
  induction n generalizing y with
  | zero => simp [rowsList]
  | succ n ih =>
    simp only [rowsList_succ, List.mem_append, mem_rowList, ih (y + 1)]
    constructor
    · rintro (⟨h1, h2, h3⟩ | ⟨h1, h2, h3, h4⟩)
      · refine ⟨h1, h2, by omega, by push_cast; omega⟩
      · refine ⟨h1, h2, by omega, by push_cast at h4 ⊢; omega⟩
    · rintro ⟨h1, h2, h3, h4⟩
      rcases eq_or_lt_of_le h3 with heq | hlt
      · exact Or.inl ⟨h1, h2, heq.symm⟩
      · exact Or.inr ⟨h1, h2, by omega, by push_cast at h4 ⊢; omega⟩

theorem gridIterList_row (b : GridBounds) (cx cy : Int)
    (hcx : cx < b.top_right.x) :
    gridIterList b ⟨cx, cy⟩ =
      rowList (cx + 1) cy (b.top_right.x - 1 - cx).toNat ++
      gridIterList b ⟨b.top_right.x - 1, cy⟩ := by
  generalize hk : (b.top_right.x - 1 - cx).toNat = k
  induction k generalizing cx with
  | zero =>
    have hcxeq : cx = b.top_right.x - 1 := by omega
    subst hcxeq
    simp [rowList]
  | succ k ih =>
    rw [gridIterList_step, if_neg (by omega)]
    rw [ih (cx + 1) (by omega) (by omega)]
    rw [rowList_succ, List.cons_append]

theorem gridIterList_rows (b : GridBounds)
    (hx : b.bottom_left.x < b.top_right.x) (cy : Int) :
    gridIterList b ⟨b.top_right.x - 1, cy⟩ =
      rowsList b (cy + 1) (b.top_right.y - (cy + 1)).toNat := by
  generalize hk : (b.top_right.y - (cy + 1)).toNat = k
  induction k generalizing cy with
  | zero =>
    rw [gridIterList_step, if_pos (by omega), if_pos (by omega)]
    rfl
  | succ k ih =>
    rw [gridIterList_step, if_pos (by omega), if_neg (by omega)]
    rw [gridIterList_row b b.bottom_left.x (cy + 1) (by omega)]
    rw [ih (cy + 1) (by omega)]
    rw [rowsList_succ]
    have hrow : (b.top_right.x - b.bottom_left.x).toNat
        = (b.top_right.x - 1 - b.bottom_left.x).toNat + 1 := by omega
    rw [hrow, rowList_succ, List.cons_append]

/-- Structure of the `iter()` run for a rectangle with a nonempty half-open
    interior: exactly the half-open rectangle in row-major order
    (shared helper for claims C8 and others). -/
theorem gridIter_eq_spec (b : GridBounds) (hx : b.bottom_left.x < b.top_right.x)
    (hy : b.bottom_left.y < b.top_right.y) :
    gridIter b = gridIterSpec b := by
  unfold gridIter gridIterSpec
  have hstart : b.bottom_left.addv ⟨-1, 0⟩
      = ⟨b.bottom_left.x + -1, b.bottom_left.y + 0⟩ := rfl
  rw [hstart, gridIterList_step, if_neg (by omega)]
  have hfix : b.bottom_left.x + -1 + 1 = b.bottom_left.x := by omega
  have hfiy : b.bottom_left.y + 0 = b.bottom_left.y := by omega
  rw [hfix, hfiy]
  rw [gridIterList_row b b.bottom_left.x b.bottom_left.y (by omega)]
  rw [gridIterList_rows b hx b.bottom_left.y]
  have hsz : (b.top_right.y - b.bottom_left.y).toNat =
      (b.top_right.y - (b.bottom_left.y + 1)).toNat + 1 := by omega
  rw [hsz, rowsList_succ]
  have hrow : (b.top_right.x - b.bottom_left.x).toNat
      = (b.top_right.x - 1 - b.bottom_left.x).toNat + 1 := by omega
  rw [hrow, rowList_succ, List.cons_append]

theorem rowList_nodup (x0 y : Int) (n : Nat) : (rowList x0 y n).Nodup := by
  induction n generalizing x0 with
  | zero => simp [rowList]
  | succ n ih =>
    rw [rowList_succ]
    refine List.Nodup.cons ?_ (ih (x0 + 1))
    intro hmem
    rw [mem_rowList] at hmem
    dsimp only at hmem
    omega

theorem rowsList_nodup (b : GridBounds) (y : Int) (n : Nat) :
    (rowsList b y n).Nodup := by
  induction n generalizing y with
  | zero => simp [rowsList]
  | succ n ih =>
    rw [rowsList_succ]
    refine List.Nodup.append (rowList_nodup _ _ _) (ih (y + 1)) ?_
    intro p hp hq
    rw [mem_rowList] at hp
    rw [mem_rowsList] at hq
    omega

/- ---------------------------------------------------------------------- -/
/- Claim C8                                                                -/
/- ---------------------------------------------------------------------- -/

/-- **C8, counterexample.** For the bounds from `(0,0)` to `(1,1)`,
    `contains (1,1)` holds but the iterator never yields `(1,1)`: the run
    is exactly `[(0,0)]`, so the top row and rightmost column of the
    inclusive rectangle are skipped. -/
theorem c8_iter_misses_contained_point :
    GridBounds.contains ⟨⟨0, 0⟩, ⟨1, 1⟩⟩ ⟨1, 1⟩ = true ∧
    gridIter ⟨⟨0, 0⟩, ⟨1, 1⟩⟩ = [⟨0, 0⟩] ∧
    ⟨1, 1⟩ ∉ gridIter ⟨⟨0, 0⟩, ⟨1, 1⟩⟩ := by
  have h := gridIter_eq_spec ⟨⟨0, 0⟩, ⟨1, 1⟩⟩ (by decide) (by decide)
  refine ⟨by decide, ?_, ?_⟩
  · rw [h]
    rfl
  · rw [h]
    decide

/-- **C8, amended.** For bounds whose half-open interior is nonempty
    (`bottom_left < top_right` in both axes), `iter()` yields, exactly once
    each and in row-major order, exactly the points `p` with
    `bottom_left ≤ p` and `p < top_right` strictly — i.e. the contained
    points excluding the inclusive rectangle's top row and rightmost
    column. -/
theorem c8_iter_half_open_row_major (b : GridBounds)
    (hx : b.bottom_left.x < b.top_right.x)
    (hy : b.bottom_left.y < b.top_right.y) :
    gridIter b = gridIterSpec b ∧
    (gridIter b).Nodup ∧
    ∀ p : GridVec, p ∈ gridIter b ↔
      (b.contains p = true ∧ p.x < b.top_right.x ∧ p.y < b.top_right.y) := by
  have h := gridIter_eq_spec b hx hy
  refine ⟨h, by rw [h]; exact rowsList_nodup _ _ _, ?_⟩
  intro p
  rw [h]
  unfold gridIterSpec
  rw [mem_rowsList]
  unfold GridBounds.contains GridBounds.left GridBounds.right GridBounds.bottom
    GridBounds.top
  simp only [Bool.and_eq_true, decide_eq_true_eq]
  omega

theorem c8_iter_half_open_row_major_witness :
    ((0 : Int) < 2 ∧ (0 : Int) < 2) ∧
    (gridIter ⟨⟨0, 0⟩, ⟨2, 2⟩⟩ = gridIterSpec ⟨⟨0, 0⟩, ⟨2, 2⟩⟩ ∧
      (gridIter ⟨⟨0, 0⟩, ⟨2, 2⟩⟩).Nodup ∧
      ∀ p : GridVec, p ∈ gridIter ⟨⟨0, 0⟩, ⟨2, 2⟩⟩ ↔
        (GridBounds.contains ⟨⟨0, 0⟩, ⟨2, 2⟩⟩ p = true ∧ p.x < 2 ∧ p.y < 2)) :=
  ⟨⟨by decide, by decide⟩,
    c8_iter_half_open_row_major ⟨⟨0, 0⟩, ⟨2, 2⟩⟩ (by decide) (by decide)⟩

/-- The run of `SlideGridIterator::next` calls.  The thread RNG is an
    oracle stream `flips`; `fi` is the index of the next unused draw
    (`gen_bool` is short-circuited away when `width == 0`, mirroring
    `self.bounds.width() != 0 && self.rng.gen_bool(0.5)`). -/
def slideIterList (b : GridBounds) (flips : Nat → Bool) (cur : GridVec)
    (flipped : Bool) (fi : Nat) : List GridVec :=
  let x1 : Int := cur.x + (cond flipped (-1) 1)
  if h1 : (flipped = true ∧ x1 < b.bottom_left.x) ∨
      (flipped = false ∧ x1 ≥ b.top_right.x) then
    let wnz : Bool := decide (b.width ≠ 0)
    let f2 : Bool := wnz && flips fi
    let fi2 : Nat := cond wnz (fi + 1) fi
    let x2 : Int := cond f2 (b.top_right.x - 1) b.bottom_left.x
    if h2 : cur.y - 1 < b.bottom_left.y then []
    else ⟨x2, cur.y - 1⟩ :: slideIterList b flips ⟨x2, cur.y - 1⟩ f2 fi2
  else ⟨x1, cur.y⟩ :: slideIterList b flips ⟨x1, cur.y⟩ flipped fi
termination_by ((cur.y - b.bottom_left.y + 1).toNat,
  if flipped then (cur.x - b.bottom_left.x + 1).toNat
  else (b.top_right.x - cur.x).toNat)
decreasing_by
  · apply Prod.Lex.left
    dsimp only
    omega
  · apply Prod.Lex.right
    cases flipped
    · have hx1 : ¬ (cur.x + 1 ≥ b.top_right.x) := fun hc => h1 (Or.inr ⟨rfl, hc⟩)
      simp only [Bool.cond_false]
      have hf : (false = true) = False := by simp
      simp only [hf, if_false]
      omega
    · have hx1 : ¬ (cur.x + -1 < b.bottom_left.x) := fun hc => h1 (Or.inl ⟨rfl, hc⟩)
      simp only [Bool.cond_true]
      have ht : (true = true) = True := by simp
      simp only [ht, if_true]
      omega

/-- `GridBounds::slide_iter`: starts at `top_left + (-1, -1)`, not flipped. -/
def slideIter (b : GridBounds) (flips : Nat → Bool) : List GridVec :=
  slideIterList b flips ((⟨b.bottom_left.x, b.top_right.y⟩ : GridVec).addv ⟨-1, -1⟩)
    false 0

theorem slideIterList_step (b : GridBounds) (flips : Nat → Bool)
    (cx cy : Int) (flipped : Bool) (fi : Nat) :
    slideIterList b flips ⟨cx, cy⟩ flipped fi =
      (if (flipped = true ∧ cx + (cond flipped (-1) 1) < b.bottom_left.x) ∨
          (flipped = false ∧ cx + (cond flipped (-1) 1) ≥ b.top_right.x) then
        if cy - 1 < b.bottom_left.y then []
        else
          (⟨cond (decide (b.width ≠ 0) && flips fi) (b.top_right.x - 1)
              b.bottom_left.x, cy - 1⟩ : GridVec) ::
            slideIterList b flips
              ⟨cond (decide (b.width ≠ 0) && flips fi) (b.top_right.x - 1)
                  b.bottom_left.x, cy - 1⟩
              (decide (b.width ≠ 0) && flips fi)
              (cond (decide (b.width ≠ 0)) (fi + 1) fi)
      else ⟨cx + (cond flipped (-1) 1), cy⟩ ::
        slideIterList b flips ⟨cx + (cond flipped (-1) 1), cy⟩ flipped fi) := by
  rw [slideIterList]
  rfl

/-- `n` cells starting at `(x0, y)` walking left. -/
def rowListRev (x0 y : Int) : Nat → List GridVec
  | 0 => []
  | n + 1 => ⟨x0, y⟩ :: rowListRev (x0 - 1) y n

theorem rowListRev_succ (x0 y : Int) (n : Nat) :
    rowListRev x0 y (n + 1) = ⟨x0, y⟩ :: rowListRev (x0 - 1) y n := rfl

theorem mem_rowListRev (x0 y : Int) (n : Nat) (p : GridVec) :
    p ∈ rowListRev x0 y n ↔ (x0 - n < p.x ∧ p.x ≤ x0 ∧ p.y = y) := by
  induction n generalizing x0 with
  | zero =>
    simp only [rowListRev, List.not_mem_nil, false_iff]
    push_cast
    omega
  | succ n ih =>
    simp only [rowListRev_succ, List.mem_cons, ih (x0 - 1)]
    constructor
    · rintro (rfl | ⟨h1, h2, h3⟩)
      · dsimp only
        refine ⟨by push_cast; omega, by omega, rfl⟩
      · exact ⟨by push_cast at h1 ⊢; omega, by omega, h3⟩
    · rintro ⟨h1, h2, h3⟩
      rcases eq_or_lt_of_le h2 with heq | hlt
      · left
        have hp : p = ⟨p.x, p.y⟩ := rfl
        rw [hp, heq, h3]
      · right
        exact ⟨by push_cast at h1 ⊢; omega, by omega, h3⟩

/-- Remaining rows of a slide run, top-to-bottom starting at row `y`, each
    row's direction decided by the next RNG draw (right-to-left iff the
    width is nonzero and the draw is true). -/
def slideRowsList (b : GridBounds) (flips : Nat → Bool) (y : Int) (fi : Nat) :
    Nat → List GridVec
  | 0 => []
  | n + 1 =>
      (cond (decide (b.width ≠ 0) && flips fi)
        (rowListRev (b.top_right.x - 1) y (b.top_right.x - b.bottom_left.x).toNat)
        (rowList b.bottom_left.x y (b.top_right.x - b.bottom_left.x).toNat)) ++
      slideRowsList b flips (y - 1) (cond (decide (b.width ≠ 0)) (fi + 1) fi) n

theorem slideRowsList_succ (b : GridBounds) (flips : Nat → Bool) (y : Int)
    (fi : Nat) (n : Nat) :
    slideRowsList b flips y fi (n + 1) =
      (cond (decide (b.width ≠ 0) && flips fi)
        (rowListRev (b.top_right.x - 1) y (b.top_right.x - b.bottom_left.x).toNat)
        (rowList b.bottom_left.x y (b.top_right.x - b.bottom_left.x).toNat)) ++
      slideRowsList b flips (y - 1) (cond (decide (b.width ≠ 0)) (fi + 1) fi) n
    := rfl

/-- The whole slide run for a nonempty rectangle: the top interior row
    left-to-right, then the remaining rows downward with RNG-chosen
    directions. -/
def slideSpec (b : GridBounds) (flips : Nat → Bool) : List GridVec :=
  rowList b.bottom_left.x (b.top_right.y - 1)
      (b.top_right.x - b.bottom_left.x).toNat ++
    slideRowsList b flips (b.top_right.y - 2) 0
      ((b.top_right.y - 1 - b.bottom_left.y).toNat)

theorem slideIterList_rowL (b : GridBounds) (flips : Nat → Bool)
    (cx cy : Int) (fi : Nat) (hcx : cx < b.top_right.x) :
    slideIterList b flips ⟨cx, cy⟩ false fi =
      rowList (cx + 1) cy (b.top_right.x - 1 - cx).toNat ++
      slideIterList b flips ⟨b.top_right.x - 1, cy⟩ false fi := by
  generalize hk : (b.top_right.x - 1 - cx).toNat = k
  induction k generalizing cx with
  | zero =>
    have hcxeq : cx = b.top_right.x - 1 := by omega
    subst hcxeq
    simp [rowList]
  | succ k ih =>
    rw [slideIterList_step]
    simp only [Bool.cond_false]
    rw [if_neg (by simp only [Bool.false_eq_true, false_and, false_or, true_and]; omega)]
    rw [ih (cx + 1) (by omega) (by omega)]
    rw [rowList_succ, List.cons_append]

theorem slideIterList_rowR (b : GridBounds) (flips : Nat → Bool)
    (cx cy : Int) (fi : Nat) (hcx : b.bottom_left.x ≤ cx) :
    slideIterList b flips ⟨cx, cy⟩ true fi =
      rowListRev (cx - 1) cy (cx - b.bottom_left.x).toNat ++
      slideIterList b flips ⟨b.bottom_left.x, cy⟩ true fi := by
  generalize hk : (cx - b.bottom_left.x).toNat = k
  induction k generalizing cx with
  | zero =>
    have hcxeq : cx = b.bottom_left.x := by omega
    subst hcxeq
    simp [rowListRev]
  | succ k ih =>
    rw [slideIterList_step]
    simp only [Bool.cond_true]
    rw [if_neg (by simp only [Bool.true_eq_false, false_and, or_false, true_and]; omega)]
    have hsub : cx + -1 = cx - 1 := by ring
    rw [hsub]
    rw [ih (cx - 1) (by omega) (by omega)]
    rw [rowListRev_succ, List.cons_append]

theorem slideIterList_rows (b : GridBounds) (flips : Nat → Bool)
    (hx : b.bottom_left.x < b.top_right.x) (cy : Int) (fi : Nat) (f : Bool) :
    slideIterList b flips ⟨cond f b.bottom_left.x (b.top_right.x - 1), cy⟩ f fi =
      slideRowsList b flips (cy - 1) fi (cy - b.bottom_left.y).toNat := by
  generalize hk : (cy - b.bottom_left.y).toNat = k
  induction k generalizing cy fi f with
  | zero =>
    cases f
    · rw [slideIterList_step]
      simp only [Bool.cond_false]
      rw [if_pos (by simp only [Bool.false_eq_true, false_and, false_or, true_and]; omega),
        if_pos (by omega)]
      rfl
    · rw [slideIterList_step]
      simp only [Bool.cond_true]
      rw [if_pos (by simp only [Bool.true_eq_false, false_and, or_false, true_and]; omega),
        if_pos (by omega)]
      rfl
  | succ k ih =>
    have hwrap : ∀ g : Bool,
        slideIterList b flips ⟨cond g b.bottom_left.x (b.top_right.x - 1), cy⟩ g fi =
          (⟨cond (decide (b.width ≠ 0) && flips fi) (b.top_right.x - 1)
              b.bottom_left.x, cy - 1⟩ : GridVec) ::
            slideIterList b flips
              ⟨cond (decide (b.width ≠ 0) && flips fi) (b.top_right.x - 1)
                  b.bottom_left.x, cy - 1⟩
              (decide (b.width ≠ 0) && flips fi)
              (cond (decide (b.width ≠ 0)) (fi + 1) fi) := by
      intro g
      cases g
      · rw [slideIterList_step]
        simp only [Bool.cond_false]
        rw [if_pos (by simp only [Bool.false_eq_true, false_and, false_or, true_and]; omega),
          if_neg (by omega)]
      · rw [slideIterList_step]
        simp only [Bool.cond_true]
        rw [if_pos (by simp only [Bool.true_eq_false, false_and, or_false, true_and]; omega),
          if_neg (by omega)]
    rw [hwrap f, slideRowsList_succ]
    cases hf2 : (decide (b.width ≠ 0) && flips fi)
    · simp only [Bool.cond_false]
      rw [slideIterList_rowL b flips b.bottom_left.x (cy - 1) _ (by omega)]
      have hcont := ih (cy - 1) (cond (decide (b.width ≠ 0)) (fi + 1) fi) false (by omega)
      simp only [Bool.cond_false] at hcont
      rw [hcont]
      have hrow : (b.top_right.x - b.bottom_left.x).toNat
          = (b.top_right.x - 1 - b.bottom_left.x).toNat + 1 := by omega
      rw [hrow, rowList_succ, List.cons_append]
    · simp only [Bool.cond_true]
      rw [slideIterList_rowR b flips (b.top_right.x - 1) (cy - 1) _ (by omega)]
      have hcont := ih (cy - 1) (cond (decide (b.width ≠ 0)) (fi + 1) fi) true (by omega)
      simp only [Bool.cond_true] at hcont
      rw [hcont]
      have hrow : (b.top_right.x - b.bottom_left.x).toNat
          = (b.top_right.x - 1 - b.bottom_left.x).toNat + 1 := by omega
      rw [hrow, rowListRev_succ, List.cons_append]

/-- Structure of the `slide_iter()` run for a rectangle with a nonempty
    half-open interior: the top interior row left-to-right, then rows
    downward, direction drawn from the RNG stream (shared helper for
    claims C5 and C2). -/
theorem slideIter_eq_spec (b : GridBounds) (flips : Nat → Bool)
    (hx : b.bottom_left.x < b.top_right.x) :
    slideIter b flips = slideSpec b flips := by
  unfold slideIter slideSpec
  have hstart : ((⟨b.bottom_left.x, b.top_right.y⟩ : GridVec).addv ⟨-1, -1⟩)
      = ⟨b.bottom_left.x + -1, b.top_right.y + -1⟩ := rfl
  rw [hstart, slideIterList_step]
  simp only [Bool.cond_false]
  rw [if_neg (by simp only [Bool.false_eq_true, false_and, false_or, true_and]; omega)]
  have h1 : b.bottom_left.x + -1 + 1 = b.bottom_left.x := by ring
  have h2 : b.top_right.y + -1 = b.top_right.y - 1 := by ring
  rw [h1, h2]
  rw [slideIterList_rowL b flips b.bottom_left.x (b.top_right.y - 1) 0 (by omega)]
  have hrows := slideIterList_rows b flips hx (b.top_right.y - 1) 0 false
  simp only [Bool.cond_false] at hrows
  rw [hrows]
  have hrow : (b.top_right.x - b.bottom_left.x).toNat
      = (b.top_right.x - 1 - b.bottom_left.x).toNat + 1 := by omega
  rw [hrow, rowList_succ, List.cons_append]
  have h3 : b.top_right.y - 1 - 1 = b.top_right.y - 2 := by ring
  rw [h3]

theorem mem_slideRowsList (b : GridBounds) (flips : Nat → Bool)
    (hx : b.bottom_left.x < b.top_right.x) (y : Int) (fi n : Nat) (p : GridVec) :
    p ∈ slideRowsList b flips y fi n ↔
      (b.bottom_left.x ≤ p.x ∧ p.x < b.top_right.x ∧ y - n < p.y ∧ p.y ≤ y) := by
  induction n generalizing y fi with
  | zero =>
    simp only [slideRowsList, List.not_mem_nil, false_iff]
    push_cast
    omega
  | succ n ih =>
    rw [slideRowsList_succ]
    simp only [List.mem_append]
    cases hf2 : (decide (b.width ≠ 0) && flips fi)
    · simp only [Bool.cond_false, mem_rowList, ih]
      push_cast
      omega
    · simp only [Bool.cond_true, mem_rowListRev, ih]
      push_cast
      omega

theorem mem_slideSpec (b : GridBounds) (flips : Nat → Bool)
    (hx : b.bottom_left.x < b.top_right.x)
    (hy : b.bottom_left.y < b.top_right.y) (p : GridVec) :
    p ∈ slideSpec b flips ↔
      (b.bottom_left.x ≤ p.x ∧ p.x < b.top_right.x ∧
       b.bottom_left.y ≤ p.y ∧ p.y < b.top_right.y) := by
  unfold slideSpec
  simp only [List.mem_append, mem_rowList, mem_slideRowsList b flips hx]
  omega

/- ---------------------------------------------------------------------- -/
/- Claim C5                                                                -/
/- ---------------------------------------------------------------------- -/

/-- **C5, counterexample.** On the bounds `(0,0)–(2,2)` the slide iterator
    walks rows *top-to-bottom* (the first yielded cell is `(0, 1)`, in the
    topmost visited row, not the bottom row), the first row's direction is
    left-to-right for every RNG stream (the all-false and all-true streams
    agree on the first two cells), and the inclusive top row `y = 2` is
    never visited though `contains (0,2)` holds. -/
theorem c5_slide_counterexample :
    slideIter ⟨⟨0, 0⟩, ⟨2, 2⟩⟩ (fun _ => false)
      = [⟨0, 1⟩, ⟨1, 1⟩, ⟨0, 0⟩, ⟨1, 0⟩] ∧
    slideIter ⟨⟨0, 0⟩, ⟨2, 2⟩⟩ (fun _ => true)
      = [⟨0, 1⟩, ⟨1, 1⟩, ⟨1, 0⟩, ⟨0, 0⟩] ∧
    GridBounds.contains ⟨⟨0, 0⟩, ⟨2, 2⟩⟩ ⟨0, 2⟩ = true ∧
    ⟨0, 2⟩ ∉ slideIter ⟨⟨0, 0⟩, ⟨2, 2⟩⟩ (fun _ => false) := by
  have hF := slideIter_eq_spec ⟨⟨0, 0⟩, ⟨2, 2⟩⟩ (fun _ => false) (by decide)
  have hT := slideIter_eq_spec ⟨⟨0, 0⟩, ⟨2, 2⟩⟩ (fun _ => true) (by decide)
  refine ⟨?_, ?_, by decide, ?_⟩
  · rw [hF]
    decide
  · rw [hT]
    decide
  · rw [hF]
    decide

/-- **C5, amended.** For bounds with a nonempty half-open interior the
    slide iterator walks the rows *top-to-bottom* (`y` from `top_right.y -
    1` down to `bottom_left.y`), covering in each row exactly
    `x ∈ [bottom_left.x, top_right.x)`.  The first row is always
    left-to-right; each subsequent row is right-to-left exactly when the
    width is nonzero and the next RNG draw (modelled as an oracle stream)
    is true, else left-to-right. -/
theorem c5_slide_top_down_half_open (b : GridBounds) (flips : Nat → Bool)
    (hx : b.bottom_left.x < b.top_right.x)
    (hy : b.bottom_left.y < b.top_right.y) :
    slideIter b flips = slideSpec b flips ∧
    ∀ p : GridVec, p ∈ slideIter b flips ↔
      (b.contains p = true ∧ p.x < b.top_right.x ∧ p.y < b.top_right.y) := by
  have h := slideIter_eq_spec b flips hx
  refine ⟨h, ?_⟩
  intro p
  rw [h, mem_slideSpec b flips hx hy p]
  unfold GridBounds.contains GridBounds.left GridBounds.right GridBounds.bottom
    GridBounds.top
  simp only [Bool.and_eq_true, decide_eq_true_eq]
  omega

theorem c5_slide_top_down_half_open_witness :
    ((0 : Int) < 2 ∧ (0 : Int) < 2) ∧
    (slideIter ⟨⟨0, 0⟩, ⟨2, 2⟩⟩ (fun _ => false)
        = slideSpec ⟨⟨0, 0⟩, ⟨2, 2⟩⟩ (fun _ => false) ∧
      ∀ p : GridVec, p ∈ slideIter ⟨⟨0, 0⟩, ⟨2, 2⟩⟩ (fun _ => false) ↔
        (GridBounds.contains ⟨⟨0, 0⟩, ⟨2, 2⟩⟩ p = true ∧ p.x < 2 ∧ p.y < 2)) :=
  ⟨⟨by decide, by decide⟩,
    c5_slide_top_down_half_open ⟨⟨0, 0⟩, ⟨2, 2⟩⟩ (fun _ => false)
      (by decide) (by decide)⟩

/-! ### sandworld/src/particle.rs -/

inductive ParticleType
  | Air | Sand | Water | Stone | Gravel | Steam | Lava | MoltenGlass | Glass
  | Ice | Source | LaserBeam | LaserEmitter | Boundary | RegionBoundary | Dirty
deriving DecidableEq, Repr

structure Particle where
  particle_type : ParticleType
  /-- `u8`; the highest bit is the updated-this-frame flag. -/
  data : Nat
deriving DecidableEq, Repr

namespace Particle

def new (t : ParticleType) : Particle := ⟨t, 0⟩

def new_with_data (t : ParticleType) (d : Nat) : Particle := ⟨t, d⟩

def new_already_updated (t : ParticleType) : Particle := new_with_data t 128

def updated_this_frame (p : Particle) : Bool := decide (p.data &&& 128 ≠ 0)

def set_updated_this_frame (p : Particle) (v : Bool) : Particle :=
  if v then ⟨p.particle_type, p.data ||| 128⟩
  else ⟨p.particle_type, p.data &&& 127⟩

/-- `Particle::get_possible_moves` — the move-preference tiers. -/
def get_possible_moves : ParticleType → List (List GridVec)
  | .Sand =>
      [[⟨0, -1⟩, ⟨0, -2⟩],
       [⟨-1, -1⟩, ⟨1, -1⟩, ⟨2, -1⟩, ⟨-2, -1⟩]]
  | .Gravel =>
      [[⟨0, -4⟩, ⟨0, -2⟩, ⟨0, -3⟩],
       [⟨0, -1⟩],
       [⟨1, -1⟩, ⟨-1, -1⟩]]
  | .Water =>
      [[⟨1, -2⟩, ⟨-1, -2⟩, ⟨0, -2⟩, ⟨1, -1⟩, ⟨-1, -1⟩, ⟨0, -1⟩],
       [⟨1, 0⟩, ⟨-1, 0⟩, ⟨2, -1⟩, ⟨-2, -1⟩, ⟨2, 0⟩, ⟨-2, 0⟩, ⟨3, -1⟩, ⟨-3, -1⟩],
       [⟨3, 0⟩, ⟨-3, 0⟩, ⟨5, -1⟩, ⟨-5, -1⟩, ⟨5, 0⟩, ⟨-5, 0⟩, ⟨5, -1⟩, ⟨-5, -1⟩]]
  | .Steam =>
      [[⟨1, 2⟩, ⟨-1, 2⟩, ⟨0, 2⟩, ⟨1, 1⟩, ⟨-1, 1⟩, ⟨0, 1⟩],
       [⟨1, 0⟩, ⟨-1, 0⟩, ⟨2, 0⟩, ⟨-2, 0⟩, ⟨2, 1⟩, ⟨-2, 1⟩],
       [⟨1, -1⟩, ⟨-1, -1⟩]]
  | .Lava =>
      [[⟨1, -2⟩, ⟨-1, -2⟩, ⟨0, -2⟩, ⟨0, -1⟩],
       [⟨1, -1⟩, ⟨-1, -1⟩, ⟨1, 0⟩, ⟨-1, 0⟩, ⟨2, -1⟩, ⟨-2, -1⟩, ⟨2, 0⟩, ⟨-2, 0⟩,
        ⟨3, -1⟩, ⟨-3, -1⟩]]
  | .MoltenGlass =>
      [[⟨1, -2⟩, ⟨-1, -2⟩, ⟨0, -2⟩, ⟨0, -1⟩],
       [⟨1, -1⟩, ⟨-1, -1⟩, ⟨1, 0⟩, ⟨-1, 0⟩, ⟨2, -1⟩, ⟨-2, -1⟩, ⟨2, 0⟩, ⟨-2, 0⟩,
        ⟨3, -1⟩, ⟨-3, -1⟩]]
  | _ => []

/-- `Particle::get_can_replace` — the replacement table. -/
def get_can_replace (particle_type replace_type : ParticleType) : Bool :=
  match particle_type with
  | .Sand => replace_type = .Water ∨ replace_type = .Lava
  | .Gravel => replace_type = .Water ∨ replace_type = .Steam ∨ replace_type = .Lava
  | .Steam => replace_type = .Water ∨ replace_type = .Lava
  | .Lava => replace_type = .Water ∨ replace_type = .Steam
  | .MoltenGlass => replace_type = .Water ∨ replace_type = .Steam ∨ replace_type = .Lava
  | .LaserBeam => replace_type = .Water ∨ replace_type = .Steam
  | _ => false

end Particle

/-- `get_heat_for_type`. -/
def get_heat_for_type : ParticleType → Int
  | .Ice => -8
  | .Water => -3
  | .Stone => 0
  | .Sand => 0
  | .Gravel => 0
  | .Lava => 128
  | .MoltenGlass => 128
  | .Glass => 1
  | .Steam => 16
  | .LaserBeam => 1024
  | .LaserEmitter => 2048
  | _ => 0

/-- `int_util::remap_clamped` (all arithmetic truncating `i32`). -/
def remap_clamped (val from_low from_high to_low to_high : Int) : Int :=
  Int.tdiv ((max from_low (min from_high val) - from_low) * (to_high - to_low))
      (from_high - from_low) + to_low

/-- `get_viscosity_for_type`. -/
def get_viscosity_for_type (t : ParticleType) (temp : Int) : Int :=
  match t with
  | .Water => 2
  | .Lava => remap_clamped temp 196 320 3 1
  | .MoltenGlass => remap_clamped temp 196 400 4 1
  | .Steam => -1
  | _ => 0

/-- `get_state_change_for_type`, thresholds and result types.  The `f64`
    base chances (0.1–0.5) feed only the probability of the RNG draw,
    which the embedding treats as an oracle, so they are not represented. -/
def get_state_change_for_type (t : ParticleType) :
    Option (Int × ParticleType) × Option (Int × ParticleType) :=
  match t with
  | .Ice => (some (-28, .Water), none)
  | .Water => (some (100, .Steam), some (-40, .Ice))
  | .Steam => (none, some (150, .Water))
  | .Stone => (some (700, .Lava), none)
  | .Gravel => (some (680, .Lava), none)
  | .Sand => (some (650, .MoltenGlass), none)
  | .Lava => (none, some (516, .Stone))
  | .MoltenGlass => (none, some (500, .Glass))
  | .Glass => (some (480, .MoltenGlass), none)
  | _ => (none, none)

def get_is_lonely_type : ParticleType → Bool
  | .Stone => true
  | .Glass => true
  | _ => false

def get_lonely_break_type : ParticleType → ParticleType
  | .Stone => .Gravel
  | .Glass => .Sand
  | _ => .Sand

/-- Modelled from the spec: `ParticleSet` — "fast membership test over
    particle types (bitmask)".  Its defining source file is not under
    `src/`; only its uses (`test`, the `SOLID_MATS` constant) appear.
    Modelled as a set of types with a membership test. -/
def ParticleSet := List ParticleType

def ParticleSet.test (s : ParticleSet) (t : ParticleType) : Bool :=
  List.contains s t

def SOLID_MATS : ParticleSet := [.Stone, .Glass]

/-- `try_state_change`: threshold checks from the table; the biased coin
    (`rng.gen_bool(chance · ratio)`) is an oracle draw `draw1`/`draw2` for
    the melt and freeze attempts respectively. -/
def try_state_change (t : ParticleType) (local_temperature : Int)
    (draw1 draw2 : Bool) : Option ParticleType :=
  let sc := get_state_change_for_type t
  match sc.1 with
  | some (melt_temp, melt_type) =>
      if local_temperature ≥ melt_temp ∧ draw1 = true then some melt_type
      else match sc.2 with
        | some (freeze_temp, freeze_type) =>
            if local_temperature ≤ freeze_temp ∧ draw2 = true then
              some freeze_type
            else none
        | none => none
  | none => match sc.2 with
    | some (freeze_temp, freeze_type) =>
        if local_temperature ≤ freeze_temp ∧ draw2 = true then some freeze_type
        else none
    | none => none

/-- `ChunkCommand` (custom-rule commands). -/
inductive ChunkCommand
  | Add : GridVec → ParticleType → Nat → ChunkCommand
  | Move : List GridVec → ChunkCommand
  | MoveOrDestroy : List GridVec → ChunkCommand
  | Remove : ChunkCommand
  | Mutate : ParticleType → Nat → ChunkCommand

/-- `CustomUpdateRules::water_source_update`. -/
def water_source_update (position : GridVec) (particle : Particle)
    (neighbors : List ParticleType) : List ChunkCommand :=
  let data_val := particle.data &&& 127
  if data_val = 0 then
    let new_val := (neighbors.map fun part =>
      match part with
      | ParticleType.Water => 1
      | ParticleType.Lava => 2
      | ParticleType.Sand => 3
      | ParticleType.Gravel => 4
      | ParticleType.Steam => 5
      | _ => 0).foldl (fun acc v => if acc ≠ 0 then acc else v) 0
    [ChunkCommand.Mutate particle.particle_type new_val]
  else
    let emit_type :=
      match data_val with
      | 1 => ParticleType.Water
      | 2 => ParticleType.Lava
      | 3 => ParticleType.Sand
      | 4 => ParticleType.Gravel
      | 5 => ParticleType.Steam
      | _ => ParticleType.Air
    [ChunkCommand.Add ⟨position.x - 1, position.y⟩ emit_type 0,
     ChunkCommand.Add ⟨position.x + 1, position.y⟩ emit_type 0,
     ChunkCommand.Add ⟨position.x, position.y - 1⟩ emit_type 0,
     ChunkCommand.Add ⟨position.x, position.y + 1⟩ emit_type 0]

/-- `CustomUpdateRules::laser_beam_update`. -/
def laser_beam_update (_position : GridVec) (particle : Particle)
    (_neighbors : List ParticleType) : List ChunkCommand :=
  let dir_val := particle.data &&& 127
  let movement : GridVec :=
    match dir_val with
    | 1 => ⟨1, 0⟩
    | 2 => ⟨0, -1⟩
    | 3 => ⟨-1, 0⟩
    | _ => ⟨0, 1⟩
  [ChunkCommand.MoveOrDestroy [movement]]

/-- `CustomUpdateRules::laser_emitter_update`. -/
def laser_emitter_update (position : GridVec) (particle : Particle)
    (_neighbors : List ParticleType) : List ChunkCommand :=
  let dir_val := particle.data &&& 127
  let movement : GridVec :=
    match dir_val with
    | 1 => ⟨1, 0⟩
    | 2 => ⟨0, -1⟩
    | 3 => ⟨-1, 0⟩
    | _ => ⟨0, 1⟩
  [ChunkCommand.Add (position.addv movement) ParticleType.LaserBeam dir_val]

/-- `get_update_fn_for_type`. -/
def get_update_fn_for_type (t : ParticleType) :
    Option (GridVec → Particle → List ParticleType → List ChunkCommand) :=
  match t with
  | .Source => some water_source_update
  | .LaserBeam => some laser_beam_update
  | .LaserEmitter => some laser_emitter_update
  | _ => none

/-! ### sandworld/src/chunk.rs — chunk state and cell access

A chunk is embedded together with the cell planes of its up to 8 neighbor
chunks: `cells` is addressed in the subject chunk's local coordinates
extended to `[-64, 128)` on each axis, so neighbor `(dx, dy)`'s local cell
`(ox, oy)` is `cells (ox + 64*dx) (oy + 64*dy)`.  `nbr d` says whether the
neighbor slot toward `d` holds a chunk.  Neighbor chunks' own metadata
(their dirty rectangles, and dirty marks forwarded into them) is not part
of the subject chunk's state and is not represented. -/

def CHUNK_SIZE : Int := 64

structure ChunkCtx where
  cells : Int → Int → Particle
  nbr : GridVec → Bool
  dirty : Option GridBounds
  update_this_frame : Option GridBounds
  updated_last_frame : Option GridBounds

namespace ChunkCtx

/-- `Chunk::contains` (arguments are `i16`). -/
def contains (x y : Int) : Bool :=
  decide (0 ≤ x) && decide (0 ≤ y) && decide (x < CHUNK_SIZE) &&
    decide (y < CHUNK_SIZE)

/-- `Chunk::get_oob_direction`. -/
def get_oob_direction (x y : Int) : GridVec :=
  ⟨if x < 0 then -1 else if x ≥ CHUNK_SIZE then 1 else 0,
   if y < 0 then -1 else if y ≥ CHUNK_SIZE then 1 else 0⟩

/-- `Chunk::get_neighbor` — whether the slot toward `dir` holds a chunk
    (the `(0,0)` direction has no slot). -/
def get_neighbor (c : ChunkCtx) (dir : GridVec) : Bool :=
  if dir.y < 0 then
    if dir.x < 0 then c.nbr ⟨-1, -1⟩
    else if dir.x = 0 then c.nbr ⟨0, -1⟩
    else c.nbr ⟨1, -1⟩
  else if dir.y = 0 then
    if dir.x < 0 then c.nbr ⟨-1, 0⟩
    else if dir.x > 0 then c.nbr ⟨1, 0⟩
    else false
  else
    if dir.x < 0 then c.nbr ⟨-1, 1⟩
    else if dir.x = 0 then c.nbr ⟨0, 1⟩
    else c.nbr ⟨1, 1⟩

/-- Reading neighbor `dir`'s local cell `(ox, oy)` in the unified plane. -/
def nbrCell (c : ChunkCtx) (dir : GridVec) (ox oy : Int) : Particle :=
  c.cells (ox + CHUNK_SIZE * dir.x) (oy + CHUNK_SIZE * dir.y)

/-- `Chunk::get_test_particle`: in-chunk read, else cross-chunk read with
    the source's modulo wrap, `None` when the needed neighbor is absent. -/
def get_test_particle (c : ChunkCtx) (x y : Int) : Option Particle :=
  if contains x y then some (c.cells x y)
  else
    let d := get_oob_direction x y
    if get_neighbor c d then
      let ox0 := Int.tmod x CHUNK_SIZE
      let oy0 := Int.tmod y CHUNK_SIZE
      let ox := if ox0 < 0 then ox0 + CHUNK_SIZE else ox0
      let oy := if oy0 < 0 then oy0 + CHUNK_SIZE else oy0
      some (nbrCell c d ox oy)
    else none

/-- `Chunk::get_part_can_move`. -/
def get_part_can_move (c : ChunkCtx) (x y : Int) (priority_movement : Bool)
    (test_type : ParticleType) : Bool :=
  match get_test_particle c x y with
  | some tp =>
      if tp.updated_this_frame then
        priority_movement || Particle.get_can_replace test_type tp.particle_type
      else if tp.particle_type = .Air then true
      else if Particle.get_can_replace test_type tp.particle_type then true
      else false
  | none => false

end ChunkCtx

/-- Rust `i8::signum` / `i16::signum`. -/
def isignum (v : Int) : Int := if v < 0 then -1 else if v = 0 then 0 else 1

theorem isignum_spec (v : Int) :
    (v < 0 ∧ isignum v = -1) ∨ (v = 0 ∧ isignum v = 0) ∨
      (0 < v ∧ isignum v = 1) := by
  unfold isignum
  rcases lt_trichotomy v 0 with h | h | h
  · left
    exact ⟨h, if_pos h⟩
  · right; left
    refine ⟨h, ?_⟩
    rw [if_neg (by omega), if_pos h]
  · right; right
    refine ⟨h, ?_⟩
    rw [if_neg (by omega), if_neg (by omega)]

/-- `Chunk::test_vec` — whether a particle of type `test_type` at
    `(base_x, base_y)` can move by `(vx, vy)`, stepping for long vectors. -/
def test_vec (c : ChunkCtx) (base_x base_y vx vy : Int)
    (test_type : ParticleType) : Bool :=
  if _h0 : vx.natAbs > 1 ∨ vy.natAbs > 1 then
    let tx := base_x + isignum vx
    let ty := base_y + isignum vy
    if ChunkCtx.get_part_can_move c tx ty (decide (vy < 0)) test_type then
      test_vec c tx ty (vx - isignum vx) (vy - isignum vy) test_type
    else if _h1 : vx ≠ 0 ∧ vy ≠ 0 then
      if vx.natAbs > vy.natAbs ∧
          ChunkCtx.get_part_can_move c tx base_y (decide (vy < 0)) test_type
          = true then
        test_vec c tx base_y (vx - isignum vx) vy test_type
      else if vx.natAbs < vy.natAbs ∧
          ChunkCtx.get_part_can_move c base_x ty (decide (vy < 0)) test_type
          = true then
        test_vec c base_x ty vx (vy - isignum vy) test_type
      else false
    else false
  else
    ChunkCtx.get_part_can_move c (base_x + vx) (base_y + vy)
      (decide (vy < 0)) test_type
termination_by (vx.natAbs + vy.natAbs)
decreasing_by
  · rcases isignum_spec vx with ⟨ha, hb⟩ | ⟨ha, hb⟩ | ⟨ha, hb⟩ <;>
      rcases isignum_spec vy with ⟨hc, hd⟩ | ⟨hc, hd⟩ | ⟨hc, hd⟩ <;>
      rw [hb, hd] <;> omega
  · rcases isignum_spec vx with ⟨ha, hb⟩ | ⟨ha, hb⟩ | ⟨ha, hb⟩ <;>
      rw [hb] <;> omega
  · rcases isignum_spec vy with ⟨hc, hd⟩ | ⟨hc, hd⟩ | ⟨hc, hd⟩ <;>
      rw [hd] <;> omega

/-- Single-step movement tests reduce to one `get_part_can_move` at the
    target, with priority exactly "moving down" (shared helper for C4). -/
theorem test_vec_single_step (c : ChunkCtx) (x y vx vy : Int)
    (tt : ParticleType) (hvx : vx.natAbs ≤ 1) (hvy : vy.natAbs ≤ 1) :
    test_vec c x y vx vy tt =
      ChunkCtx.get_part_can_move c (x + vx) (y + vy) (decide (vy < 0)) tt := by
  rw [test_vec]
  rw [dif_neg (by omega)]

/-- The acceptance condition of the single-step test, given the target
    cell exists (shared helper for C4). -/
theorem test_vec_single_accepts (c : ChunkCtx) (x y vx vy : Int)
    (tt : ParticleType) (tp : Particle)
    (hvx : vx.natAbs ≤ 1) (hvy : vy.natAbs ≤ 1)
    (htp : ChunkCtx.get_test_particle c (x + vx) (y + vy) = some tp) :
    test_vec c x y vx vy tt =
      (if tp.updated_this_frame then
        decide (vy < 0) || Particle.get_can_replace tt tp.particle_type
      else
        decide (tp.particle_type = .Air) ||
          Particle.get_can_replace tt tp.particle_type) := by
  rw [test_vec_single_step c x y vx vy tt hvx hvy]
  unfold ChunkCtx.get_part_can_move
  rw [htp]
  rcases h1 : tp.updated_this_frame with _ | _
  · by_cases h2 : tp.particle_type = ParticleType.Air
    · simp [h1, h2]
    · by_cases h3 : Particle.get_can_replace tt tp.particle_type = true
      · simp [h1, h2, h3]
      · simp [h1, h2, h3]
  · simp [h1]

/- ---------------------------------------------------------------------- -/
/- Claim C4                                                                -/
/- ---------------------------------------------------------------------- -/

/-- **C4, counterexample.** A Water particle tested sideways `(+1, 0)`
    against an Air cell that has already moved this frame is *refused*:
    the already-moved check takes precedence over the Air check, and
    sideways movement is not priority movement, and Water cannot replace
    Air.  The claim's condition (a) "the target is Air" says it should be
    accepted. -/
theorem c4_already_moved_air_refused :
    ChunkCtx.get_test_particle
        ⟨fun _ _ => ⟨.Air, 128⟩, fun _ => false, none, none, none⟩ 6 5
      = some ⟨.Air, 128⟩ ∧
    (⟨.Air, 128⟩ : Particle).particle_type = .Air ∧
    test_vec ⟨fun _ _ => ⟨.Air, 128⟩, fun _ => false, none, none, none⟩
        5 5 1 0 .Water = false := by
  refine ⟨by decide, rfl, ?_⟩
  rw [test_vec_single_accepts _ 5 5 1 0 .Water ⟨.Air, 128⟩ (by decide)
    (by decide) (by decide)]
  decide

/-- **C4, amended.** For a single-step movement test (Chebyshev magnitude
    ≤ 1) whose target cell exists, the target accepts iff: if the target
    has already moved this frame, the move is priority (downward, `vy <
    0`) or the mover may replace the target's type; otherwise, the target
    is Air or the mover may replace the target's type.  (The already-moved
    check takes precedence: a just-moved Air cell does *not* accept
    non-priority, non-replacing movers.) -/
theorem c4_single_step_acceptance (c : ChunkCtx) (x y vx vy : Int)
    (tt : ParticleType) (tp : Particle)
    (hvx : vx.natAbs ≤ 1) (hvy : vy.natAbs ≤ 1)
    (htp : ChunkCtx.get_test_particle c (x + vx) (y + vy) = some tp) :
    test_vec c x y vx vy tt =
      (if tp.updated_this_frame then
        decide (vy < 0) || Particle.get_can_replace tt tp.particle_type
      else
        decide (tp.particle_type = .Air) ||
          Particle.get_can_replace tt tp.particle_type) :=
  test_vec_single_accepts c x y vx vy tt tp hvx hvy htp

/-- Witness: Sand falling straight down onto plain Air is accepted. -/
theorem c4_single_step_acceptance_witness :
    ((0 : Int).natAbs ≤ 1 ∧ (-1 : Int).natAbs ≤ 1 ∧
      ChunkCtx.get_test_particle
          ⟨fun _ _ => ⟨.Air, 0⟩, fun _ => false, none, none, none⟩ (5 + 0)
          (5 + -1)
        = some ⟨.Air, 0⟩) ∧
    test_vec ⟨fun _ _ => ⟨.Air, 0⟩, fun _ => false, none, none, none⟩
        5 5 0 (-1) .Sand =
      (if (⟨.Air, 0⟩ : Particle).updated_this_frame then
        decide ((-1 : Int) < 0) ||
          Particle.get_can_replace .Sand (⟨.Air, 0⟩ : Particle).particle_type
      else
        decide ((⟨.Air, 0⟩ : Particle).particle_type = .Air) ||
          Particle.get_can_replace .Sand
            (⟨.Air, 0⟩ : Particle).particle_type) :=
  ⟨⟨by decide, by decide, by decide⟩,
    c4_single_step_acceptance _ 5 5 0 (-1) .Sand ⟨.Air, 0⟩ (by decide)
      (by decide) (by decide)⟩

namespace ChunkCtx

/-- The cell write of `set_particle_sloppy` at unified coordinates:
    store the value and set its already-moved bit. -/
def writeCell (c : ChunkCtx) (ax ay : Int) (val : Particle) : ChunkCtx :=
  { c with cells := fun a b =>
      if a = ax ∧ b = ay then val.set_updated_this_frame true else c.cells a b }

/-- `Chunk::mark_region_dirty`. -/
def mark_region_dirty (c : ChunkCtx) (bounds : GridBounds) : ChunkCtx :=
  let chunk_bounds := GridBounds.new_from_corner ⟨0, 0⟩ ⟨CHUNK_SIZE, CHUNK_SIZE⟩
  match chunk_bounds.intersect bounds with
  | some db =>
      { c with dirty := GridBounds.option_union c.dirty (some db) }
  | none => c

/-- `Chunk::mark_self_dirty`. -/
def mark_self_dirty (c : ChunkCtx) : ChunkCtx :=
  mark_region_dirty c
    (GridBounds.new_from_corner ⟨-2, -2⟩ ⟨CHUNK_SIZE + 4, CHUNK_SIZE + 4⟩)

/-- `Chunk::mark_dirty` — the subject chunk's own dirty update.  The
    forwarding of the mark into neighbor chunks touches only neighbor
    metadata, which is outside this model. -/
def mark_dirty (c : ChunkCtx) (x y : Int) : ChunkCtx :=
  mark_region_dirty c (GridBounds.newCenter ⟨x, y⟩ ⟨4, 4⟩)

/-- `Chunk::set_particle` (in the subject chunk). -/
def set_particle (c : ChunkCtx) (x y : Int) (val : Particle) : ChunkCtx :=
  mark_dirty (writeCell c x y val) x y

/-- `Chunk::get_local_part`. -/
def get_local_part (c : ChunkCtx) (x y : Int) : ParticleType :=
  if contains x y then (c.cells x y).particle_type
  else
    let d := get_oob_direction x y
    if get_neighbor c d then
      let adjusted_x := x - d.x * CHUNK_SIZE
      let adjusted_y := y - d.y * CHUNK_SIZE
      (nbrCell c d adjusted_x adjusted_y).particle_type
    else .Air

/-- `Chunk::set_local_part`.  A write landing in a neighbor chunk updates
    that neighbor's cell plane; the neighbor's own dirty metadata is
    outside the model. -/
def set_local_part (c : ChunkCtx) (x y : Int) (val : Particle) : ChunkCtx :=
  if contains x y then set_particle c x y val
  else
    let d := get_oob_direction x y
    if get_neighbor c d then
      let adjusted_x := x - d.x * CHUNK_SIZE
      let adjusted_y := y - d.y * CHUNK_SIZE
      writeCell c (adjusted_x + CHUNK_SIZE * d.x) (adjusted_y + CHUNK_SIZE * d.y)
        val
    else c

/-- `Chunk::replace_particle_filtered`. -/
def replace_particle_filtered (c : ChunkCtx) (x y : Int) (val : Particle)
    (replace_type : ParticleType) : ChunkCtx :=
  if get_local_part c x y = replace_type then set_local_part c x y val else c

/-- `Chunk::add_particle`. -/
def add_particle (c : ChunkCtx) (x y : Int) (val : Particle) : ChunkCtx :=
  replace_particle_filtered c x y val .Air

/-- `Chunk::iterate_neighbor_parts` order, as a list of the 8 neighbor
    particle types. -/
def get_neighbors (c : ChunkCtx) (x y : Int) : List ParticleType :=
  [get_local_part c x (y + 1), get_local_part c (x + 1) (y + 1),
   get_local_part c (x + 1) y, get_local_part c (x + 1) (y - 1),
   get_local_part c x (y - 1), get_local_part c (x - 1) (y - 1),
   get_local_part c (x - 1) y, get_local_part c (x - 1) (y + 1)]

/-- `Chunk::count_neighbors_of_type`. -/
def count_neighbors_of_type (c : ChunkCtx) (x y : Int) (search : ParticleSet) :
    Nat :=
  (get_neighbors c x y).foldl
    (fun count t => if search.test t then count + 1 else count) 0

/-- `Chunk::caclulate_local_temp` (sic). -/
def caclulate_local_temp (c : ChunkCtx) (x y : Int) : Int :=
  let own_temp := get_heat_for_type (get_local_part c x y)
  (get_neighbors c x y).foldl
    (fun total t =>
      total + if t = .Air then Int.tdiv own_temp 2 else get_heat_for_type t) 0

/-- `Chunk::neighbors_direction_map`. -/
def neighbors_direction_map (index : Nat) : GridVec :=
  match index with
  | 0 => ⟨0, 1⟩
  | 1 => ⟨1, 1⟩
  | 2 => ⟨1, 0⟩
  | 3 => ⟨1, -1⟩
  | 4 => ⟨0, -1⟩
  | 5 => ⟨-1, -1⟩
  | 6 => ⟨-1, 0⟩
  | 7 => ⟨-1, 1⟩
  | _ => ⟨0, 0⟩

/-- `Chunk::make_move` — swap the moving particle with its target cell,
    resolving an out-of-chunk target through the neighbor plane (whose
    dirty metadata is outside the model); no neighbor, no move. -/
def make_move (c : ChunkCtx) (x y chosen_x chosen_y : Int)
    (cur_part : Particle) : ChunkCtx :=
  if contains chosen_x chosen_y then
    let c1 := set_particle c x y (c.cells chosen_x chosen_y)
    set_particle c1 chosen_x chosen_y cur_part
  else
    let d := get_oob_direction chosen_x chosen_y
    if get_neighbor c d then
      let ox0 := Int.tmod chosen_x CHUNK_SIZE
      let oy0 := Int.tmod chosen_y CHUNK_SIZE
      let ox := if ox0 < 0 then ox0 + CHUNK_SIZE else ox0
      let oy := if oy0 < 0 then oy0 + CHUNK_SIZE else oy0
      let c1 := set_particle c x y (nbrCell c d ox oy)
      writeCell c1 (ox + CHUNK_SIZE * d.x) (oy + CHUNK_SIZE * d.y) cur_part
    else c

/-- The tier scan of `particle_movement`: candidates of the first tier
    (in order) with at least one passing vector, viscosity already added,
    filtered by `test_vec`. -/
def firstPassingTier (c : ChunkCtx) (x y : Int) (tt : ParticleType)
    (visc : GridVec) : List (List GridVec) → List GridVec
  | [] => []
  | tier :: rest =>
      let pm := (tier.map fun v => v.addv visc).filter
        fun v => test_vec c x y v.x v.y tt
      if pm.isEmpty then firstPassingTier c x y tt visc rest else pm

/-- `Chunk::particle_movement`.  `pick` is the oracle for
    `rng.gen_range(0..possible_moves.len())` (taken modulo the length).
    Returns the updated state and the chosen displacement (`(0,0)` if no
    move happened). -/
def particle_movement (c : ChunkCtx) (x y : Int) (cur_part : Particle)
    (move_override : Option (List GridVec)) (neighbors : List ParticleType)
    (local_temp : Int) (pick : Nat) : ChunkCtx × GridVec :=
  let available_moves : List (List GridVec) :=
    match move_override with
    | some movement => [movement]
    | none => Particle.get_possible_moves cur_part.particle_type
  let viscosity_val := get_viscosity_for_type cur_part.particle_type local_temp
  let vv : GridVec :=
    if viscosity_val ≠ 0 then
      let s := (List.range 8).foldl
        (fun (acc : GridVec × Int) i =>
          if neighbors.getD i .Air = cur_part.particle_type then
            (acc.1.addv (neighbors_direction_map i), acc.2 + 1)
          else acc)
        (⟨0, 0⟩, 0)
      if s.2 > viscosity_val then ⟨0, 0⟩ else s.1
    else ⟨0, 0⟩
  let viscosity_vec := vv.muls viscosity_val
  if available_moves.length > 0 then
    let possible_moves :=
      firstPassingTier c x y cur_part.particle_type viscosity_vec
        available_moves
    if possible_moves.length > 0 then
      let chosen_vec := possible_moves.getD (pick % possible_moves.length)
        ⟨0, 0⟩
      let chosen_x := x + chosen_vec.x
      let chosen_y := y + chosen_vec.y
      (make_move c x y chosen_x chosen_y cur_part, chosen_vec)
    else (c, ⟨0, 0⟩)
  else (c, ⟨0, 0⟩)

end ChunkCtx

/-- How far a coordinate lies outside the chunk's `[0, 64)` range: the sum
    has at most one nonzero summand (termination measure for the
    cross-chunk `try_erode` recursion). -/
def oobDist (v : Int) : Nat := (-v).toNat + (v - 63).toNat

theorem oobdir_cases (v : Int) :
    (v < 0 ∧ (if v < 0 then (-1 : Int) else if v ≥ CHUNK_SIZE then 1 else 0)
      = -1) ∨
    (CHUNK_SIZE ≤ v ∧
      (if v < 0 then (-1 : Int) else if v ≥ CHUNK_SIZE then 1 else 0) = 1) ∨
    (0 ≤ v ∧ v < CHUNK_SIZE ∧
      (if v < 0 then (-1 : Int) else if v ≥ CHUNK_SIZE then 1 else 0) = 0) := by
  unfold CHUNK_SIZE
  rcases lt_or_ge v 0 with h1 | h1
  · left
    exact ⟨h1, if_pos h1⟩
  · rcases lt_or_ge v 64 with h2 | h2
    · right; right
      refine ⟨h1, h2, ?_⟩
      rw [if_neg (by omega), if_neg (by omega)]
    · right; left
      refine ⟨h2, ?_⟩
      rw [if_neg (by omega), if_pos (by omega)]

namespace ChunkCtx

/-- `Chunk::try_erode`.  `base` is the plane offset of the chunk frame the
    call executes in (`(0,0)` for the subject; the source recurses into a
    neighbor chunk with wrapped coordinates, which shifts the frame by
    `64·d`).  `d1`, `d2` are the oracle outcomes of the up to two
    `gen_bool` draws of the erosion attempt. -/
def try_erode (c : ChunkCtx) (base : GridVec) (x y : Int) (vel : GridVec)
    (d1 d2 : Bool) : ChunkCtx :=
  if contains x y then
    let part := c.cells (base.x + x) (base.y + y)
    if part.updated_this_frame = false then
      match part.particle_type with
      | .Sand =>
          let next_x := x + vel.x
          let next_y := y + vel.y
          if contains next_x next_y ∧ d1 = true then
            let c1 := writeCell c (base.x + x) (base.y + y)
              (c.cells (base.x + next_x) (base.y + next_y))
            writeCell c1 (base.x + next_x) (base.y + next_y) part
          else c
      | .Gravel =>
          if d1 then
            writeCell c (base.x + x) (base.y + y)
              (Particle.new_already_updated .Sand)
          else
            let next_x := x + vel.x
            let next_y := y + vel.y
            if contains next_x next_y ∧ d2 = true then
              let c1 := writeCell c (base.x + x) (base.y + y)
                (c.cells (base.x + next_x) (base.y + next_y))
              writeCell c1 (base.x + next_x) (base.y + next_y) part
            else c
      | .Stone =>
          if d1 then
            writeCell c (base.x + x) (base.y + y)
              (Particle.new_already_updated .Gravel)
          else c
      | _ => c
    else c
  else
    let d := get_oob_direction x y
    if get_neighbor c d then
      try_erode c (base.addv (d.muls CHUNK_SIZE)) (x - d.x * CHUNK_SIZE)
        (y - d.y * CHUNK_SIZE) vel d1 d2
    else c
termination_by (oobDist x + oobDist y)
decreasing_by
  rename_i hcont _
  simp only [contains, CHUNK_SIZE, decide_eq_true_eq, Bool.and_eq_true] at hcont
  dsimp only [get_oob_direction]
  unfold oobDist
  rcases oobdir_cases x with ⟨h1, e1⟩ | ⟨h1, e1⟩ | ⟨h1, h1b, e1⟩ <;>
    rcases oobdir_cases y with ⟨h2, e2⟩ | ⟨h2, e2⟩ | ⟨h2, h2b, e2⟩ <;>
    rw [e1, e2] <;>
    simp only [CHUNK_SIZE] at * <;>
    omega

end ChunkCtx

/-- The RNG outcomes one cell's update may consume: the state-change melt
    and freeze draws, the movement choice, and two draws for each of the
    four erosion attempts.  Each draw is an independent oracle, so naming
    them (instead of threading one stream) loses no behavior. -/
structure RngDraws where
  sd1 : Bool
  sd2 : Bool
  pick : Nat
  e1a : Bool
  e1b : Bool
  e2a : Bool
  e2b : Bool
  e3a : Bool
  e3b : Bool
  e4a : Bool
  e4b : Bool

namespace ChunkCtx

/-- One command of the custom-rule pass of `Chunk::update`: the
    accumulator is the chunk state, the movement override and the
    destroy-if-not-moved flag. -/
def applyCommand (x y : Int) (acc : ChunkCtx × Option (List GridVec) × Bool)
    (command : ChunkCommand) : ChunkCtx × Option (List GridVec) × Bool :=
  match command with
  | .Add pos t d =>
      (add_particle acc.1 pos.x pos.y (Particle.new_with_data t d),
        acc.2.1, acc.2.2)
  | .Move movement => (acc.1, some movement, acc.2.2)
  | .MoveOrDestroy movement => (acc.1, some movement, true)
  | .Remove =>
      (set_particle acc.1 x y (Particle.new .Air), acc.2.1, acc.2.2)
  | .Mutate t d =>
      (set_particle acc.1 x y (Particle.new_with_data t d), acc.2.1, acc.2.2)

/-- The command loop of `Chunk::update`'s custom-rule pass, starting from
    `move_override = None`, `destroy_if_not_moved = false`. -/
def applyCommands (c : ChunkCtx) (x y : Int) (cmds : List ChunkCommand) :
    ChunkCtx × Option (List GridVec) × Bool :=
  cmds.foldl (applyCommand x y) (c, none, false)

/-- The command list the custom rule produces for cell `(x, y)` (empty when
    the particle's type has no custom rule). -/
def customCommands (c : ChunkCtx) (x y : Int) : List ChunkCommand :=
  match get_update_fn_for_type (c.cells x y).particle_type with
  | some update_fn => update_fn ⟨x, y⟩ (c.cells x y) (get_neighbors c x y)
  | none => []

/-- The body of `Chunk::update` for one cell `(x, y)` of the slide-order
    walk: skip if already moved; run the custom rule's commands; attempt a
    temperature state change (with the lonely-type break); run the
    movement engine; erode around a fast-moving Water cell; destroy if the
    custom rule demanded a move that did not happen. -/
def updateCell (c : ChunkCtx) (x y : Int) (r : RngDraws) : ChunkCtx :=
  let cur_part := c.cells x y
  if cur_part.updated_this_frame then c
  else
    let neighbors := get_neighbors c x y
    let step1 : ChunkCtx × Option (List GridVec) × Bool :=
      applyCommands c x y (customCommands c x y)
    let c1 := step1.1
    let move_override := step1.2.1
    let destroy_if_not_moved := step1.2.2
    let local_temp := caclulate_local_temp c1 x y
    let c2 :=
      match try_state_change cur_part.particle_type local_temp r.sd1 r.sd2 with
      | some new_state =>
          let new_state' :=
            if get_is_lonely_type new_state = true ∧
                count_neighbors_of_type c1 x y SOLID_MATS = 0 then
              get_lonely_break_type new_state
            else new_state
          set_particle c1 x y (Particle.new new_state')
      | none => c1
    let step2 := particle_movement c2 x y cur_part move_override neighbors
      local_temp r.pick
    let c3 := step2.1
    let move_amount := step2.2
    let c4 :=
      if cur_part.particle_type = .Water ∧ move_amount.manhattan_length > 1 then
        let e1 := try_erode c3 ⟨0, 0⟩ x (y - 1) move_amount r.e1a r.e1b
        let e2 := try_erode e1 ⟨0, 0⟩ x (y + 1) move_amount r.e2a r.e2b
        let e3 := try_erode e2 ⟨0, 0⟩ (x - 1) y move_amount r.e3a r.e3b
        try_erode e3 ⟨0, 0⟩ (x + 1) y move_amount r.e4a r.e4b
      else c3
    if destroy_if_not_moved = true ∧ move_amount.manhattan_length = 0 then
      set_particle c4 x y (Particle.new .Air)
    else c4

end ChunkCtx

/-- With no move override and an empty move-preference list, the movement
    engine does nothing: no cell is written and the returned displacement
    is zero (shared helper for C9). -/
theorem particle_movement_no_moves (c : ChunkCtx) (x y : Int)
    (cur_part : Particle) (neighbors : List ParticleType) (local_temp : Int)
    (pick : Nat)
    (h : Particle.get_possible_moves cur_part.particle_type = []) :
    ChunkCtx.particle_movement c x y cur_part none neighbors local_temp pick
      = (c, ⟨0, 0⟩) := by
  unfold ChunkCtx.particle_movement
  simp [h]

theorem mark_region_dirty_cells (c : ChunkCtx) (b : GridBounds) :
    (ChunkCtx.mark_region_dirty c b).cells = c.cells := by
  unfold ChunkCtx.mark_region_dirty
  cases h : (GridBounds.new_from_corner ⟨0, 0⟩ ⟨CHUNK_SIZE, CHUNK_SIZE⟩).intersect b <;>
    simp [h]

theorem set_particle_cells_other (c : ChunkCtx) (x y a b : Int)
    (val : Particle) (hab : ¬ (a = x ∧ b = y)) :
    (ChunkCtx.set_particle c x y val).cells a b = c.cells a b := by
  unfold ChunkCtx.set_particle ChunkCtx.mark_dirty
  rw [mark_region_dirty_cells]
  unfold ChunkCtx.writeCell
  simp only [if_neg hab]

/-- Processing a command list never turns an already-set movement override
    back off, and only `MoveOrDestroy` (which sets the override) raises the
    destroy flag: if the final override is `none`, it was `none` throughout
    and the destroy flag is unchanged. -/
theorem foldl_applyCommand_no_override (x y : Int) (cmds : List ChunkCommand) :
    ∀ s : ChunkCtx × Option (List GridVec) × Bool,
      (cmds.foldl (ChunkCtx.applyCommand x y) s).2.1 = none →
      s.2.1 = none ∧ (cmds.foldl (ChunkCtx.applyCommand x y) s).2.2 = s.2.2 := by
  induction cmds with
  | nil =>
    intro s h
    exact ⟨h, rfl⟩
  | cons cmd rest ih =>
    intro s h
    rw [List.foldl_cons] at h ⊢
    have hrec := ih (ChunkCtx.applyCommand x y s cmd) h
    cases cmd with
    | Add pos t d => exact hrec
    | Move m => exact absurd hrec.1 (by simp [ChunkCtx.applyCommand])
    | MoveOrDestroy m => exact absurd hrec.1 (by simp [ChunkCtx.applyCommand])
    | Remove => exact hrec
    | Mutate t d => exact hrec

/-- A cell update of a particle whose type has no move preferences and
    whose custom-rule commands supply no movement override changes the
    cells other than `(x, y)` exactly as the custom-command pass alone
    does: the movement engine writes nothing (shared helper for C9). -/
theorem updateCell_custom_only (c : ChunkCtx) (x y : Int) (r : RngDraws)
    (hM : Particle.get_possible_moves (c.cells x y).particle_type = [])
    (hOv : (ChunkCtx.applyCommands c x y (ChunkCtx.customCommands c x y)).2.1
      = none)
    (a b : Int) (hab : ¬ (a = x ∧ b = y)) :
    (ChunkCtx.updateCell c x y r).cells a b
      = (if (c.cells x y).updated_this_frame = true then c
         else (ChunkCtx.applyCommands c x y
           (ChunkCtx.customCommands c x y)).1).cells a b := by
  have hdes : (ChunkCtx.applyCommands c x y
      (ChunkCtx.customCommands c x y)).2.2 = false :=
    (foldl_applyCommand_no_override x y (ChunkCtx.customCommands c x y)
      (c, none, false) hOv).2
  unfold ChunkCtx.updateCell
  cases hup : (c.cells x y).updated_this_frame
  · simp only [hup, Bool.false_eq_true, if_false, hOv, hdes]
    cases hsc : try_state_change (c.cells x y).particle_type
        (ChunkCtx.caclulate_local_temp
          (ChunkCtx.applyCommands c x y (ChunkCtx.customCommands c x y)).1
          x y)
        r.sd1 r.sd2
    · simp only [hsc]
      rw [particle_movement_no_moves _ x y (c.cells x y)
        (ChunkCtx.get_neighbors c x y) _ r.pick hM]
      simp [GridVec.manhattan_length]
    · simp only [hsc]
      rw [particle_movement_no_moves _ x y (c.cells x y)
        (ChunkCtx.get_neighbors c x y) _ r.pick hM]
      simp only [GridVec.manhattan_length]
      norm_num
      exact set_particle_cells_other _ x y a b _ hab
  · simp [hup]

/- ---------------------------------------------------------------------- -/
/- Claim C9                                                                -/
/- ---------------------------------------------------------------------- -/

/-- **C9, counterexample.** `LaserBeam` has an empty move-preference list,
    yet a chunk update step displaces it: its custom rule returns
    `MoveOrDestroy`, which overrides the (empty) preference list, and the
    movement engine swaps the beam one cell upward. -/
theorem c9_laser_beam_moves :
    Particle.get_possible_moves .LaserBeam = [] ∧
    ((fun a b => if a = 5 ∧ b = 5 then (⟨.LaserBeam, 0⟩ : Particle)
        else ⟨.Air, 0⟩) : Int → Int → Particle) 5 6 = ⟨.Air, 0⟩ ∧
    ((ChunkCtx.updateCell
        ⟨fun a b => if a = 5 ∧ b = 5 then ⟨.LaserBeam, 0⟩ else ⟨.Air, 0⟩,
          fun _ => false, none, none, none⟩
        5 5 ⟨false, false, 0, false, false, false, false, false, false,
          false, false⟩).cells 5 6).particle_type = .LaserBeam := by
  refine ⟨rfl, by decide, ?_⟩
  have ht : test_vec
      ⟨fun a b => if a = 5 ∧ b = 5 then ⟨.LaserBeam, 0⟩ else ⟨.Air, 0⟩,
        fun _ => false, none, none, none⟩ 5 5 0 1 .LaserBeam = true := by
    rw [test_vec_single_step _ 5 5 0 1 .LaserBeam (by decide) (by decide)]
    decide
  unfold ChunkCtx.updateCell
  norm_num [ht, ChunkCtx.get_neighbors, ChunkCtx.particle_movement,
    ChunkCtx.firstPassingTier, GridVec.addv, ChunkCtx.get_local_part,
    ChunkCtx.applyCommands, ChunkCtx.applyCommand, ChunkCtx.customCommands,
    get_update_fn_for_type, laser_beam_update, List.foldl, List.filter,
    ChunkCtx.make_move, ChunkCtx.set_particle, ChunkCtx.mark_dirty,
    mark_region_dirty_cells, ChunkCtx.writeCell, ChunkCtx.contains,
    ChunkCtx.caclulate_local_temp, try_state_change,
    get_state_change_for_type, GridVec.manhattan_length, GridVec.muls,
    Particle.updated_this_frame, Particle.set_updated_this_frame,
    Particle.new_with_data, get_viscosity_for_type, get_heat_for_type,
    CHUNK_SIZE]

/-- **C9, amended.** A particle whose type has an empty move-preference
    list is never displaced by the movement engine provided its custom
    update rule (if any) supplies no movement override for that cell:
    every cell the update step writes besides the particle's own is
    written by the custom rule's command pass (as `Source` and
    `LaserEmitter` do with `Add` commands), never by the movement engine,
    and the particle's own cell may still change type.  `LaserBeam` —
    empty preference list but a `MoveOrDestroy` rule — is the exception
    the counterexample shows. -/
theorem c9_empty_moves_never_displaced (c : ChunkCtx) (x y : Int)
    (r : RngDraws)
    (hM : Particle.get_possible_moves (c.cells x y).particle_type = [])
    (hOv : (ChunkCtx.applyCommands c x y (ChunkCtx.customCommands c x y)).2.1
      = none) :
    ∀ a b : Int, ¬ (a = x ∧ b = y) →
      (ChunkCtx.updateCell c x y r).cells a b
        = (if (c.cells x y).updated_this_frame = true then c
           else (ChunkCtx.applyCommands c x y
             (ChunkCtx.customCommands c x y)).1).cells a b :=
  fun a b hab => updateCell_custom_only c x y r hM hOv a b hab

/-- A laser emitter pointing right in an air chunk: its custom rule emits
    an `Add` into the neighbor cell but no movement override. -/
def c9ctx : ChunkCtx :=
  ⟨fun a b => if a = 3 ∧ b = 3 then ⟨.LaserEmitter, 1⟩ else ⟨.Air, 0⟩,
   fun _ => false, none, none, none⟩

def c9draws : RngDraws :=
  ⟨false, false, 0, false, false, false, false, false, false, false, false⟩

/-- Witness for C9 at a `LaserEmitter` cell: empty move-preference list, a
    custom rule whose commands carry no movement override (only an `Add`),
    and off-cell writes equal to the command pass's alone. -/
theorem c9_empty_moves_never_displaced_witness :
    (Particle.get_possible_moves (c9ctx.cells 3 3).particle_type = [] ∧
      (ChunkCtx.applyCommands c9ctx 3 3
        (ChunkCtx.customCommands c9ctx 3 3)).2.1 = none) ∧
    ∀ a b : Int, ¬ (a = 3 ∧ b = 3) →
      (ChunkCtx.updateCell c9ctx 3 3 c9draws).cells a b
        = (if (c9ctx.cells 3 3).updated_this_frame = true then c9ctx
           else (ChunkCtx.applyCommands c9ctx 3 3
             (ChunkCtx.customCommands c9ctx 3 3)).1).cells a b :=
  ⟨⟨by decide, rfl⟩,
   fun a b hab =>
     c9_empty_moves_never_displaced c9ctx 3 3 c9draws (by decide) rfl a b hab⟩

/-! ### `Chunk::commit_updates` -/

/-- Rust `i as u8` for an `i32` value, as an `Int` in `[0, 256)`. -/
def i32AsU8 (i : Int) : Int := i % 256

namespace ChunkCtx

/-- One step of the commit walk: clear the already-moved bit of the cell
    at `point` (whose coordinates pass through the `as u8` casts). -/
def clearCellAt (c : ChunkCtx) (point : GridVec) : ChunkCtx :=
  let xu := i32AsU8 point.x
  let yu := i32AsU8 point.y
  { c with cells := fun a b =>
      if a = xu ∧ b = yu then (c.cells xu yu).set_updated_this_frame false
      else c.cells a b }

/-- `Chunk::commit_updates`: rotate `dirty` into `update_this_frame`, then
    clear the already-moved bit over the slide walk of the union of
    `update_this_frame` and `updated_last_frame`.  `flips` is the RNG
    oracle of the slide iterator. -/
def commit_updates (c : ChunkCtx) (flips : Nat → Bool) : ChunkCtx :=
  match GridBounds.option_union c.dirty c.updated_last_frame with
  | some to_update =>
      (slideIter to_update flips).foldl clearCellAt
        { c with update_this_frame := c.dirty, dirty := none }
  | none => { c with update_this_frame := c.dirty, dirty := none }

end ChunkCtx

theorem set_false_idem (v : Particle) :
    (v.set_updated_this_frame false).set_updated_this_frame false
      = v.set_updated_this_frame false := by
  unfold Particle.set_updated_this_frame
  simp only [Bool.false_eq_true, if_false]
  rw [Nat.land_assoc, (by decide : (127 &&& 127 : Nat) = 127)]

theorem updated_of_set_false (v : Particle) :
    (v.set_updated_this_frame false).updated_this_frame = false := by
  unfold Particle.set_updated_this_frame Particle.updated_this_frame
  simp only [Bool.false_eq_true, if_false]
  rw [Nat.land_assoc, (by decide : (127 &&& 128 : Nat) = 0)]
  simp

theorem foldl_clearCellAt_cells (l : List GridVec) (c : ChunkCtx)
    (a b : Int) :
    ((l.foldl ChunkCtx.clearCellAt c).cells a b)
      = if ∃ p ∈ l, i32AsU8 p.x = a ∧ i32AsU8 p.y = b then
          (c.cells a b).set_updated_this_frame false
        else c.cells a b := by
  induction l generalizing c with
  | nil => simp
  | cons p rest ih =>
    rw [List.foldl_cons, ih]
    by_cases hp : i32AsU8 p.x = a ∧ i32AsU8 p.y = b
    · have hcp : (ChunkCtx.clearCellAt c p).cells a b
          = (c.cells a b).set_updated_this_frame false := by
        obtain ⟨h1, h2⟩ := hp
        subst h1; subst h2
        simp [ChunkCtx.clearCellAt]
      by_cases hr : ∃ q ∈ rest, i32AsU8 q.x = a ∧ i32AsU8 q.y = b
      · rw [if_pos hr, if_pos ⟨p, List.mem_cons_self p rest, hp⟩, hcp,
          set_false_idem]
      · rw [if_neg hr, hcp, if_pos ⟨p, List.mem_cons_self p rest, hp⟩]
    · have hcp : (ChunkCtx.clearCellAt c p).cells a b = c.cells a b := by
        unfold ChunkCtx.clearCellAt
        simp only
        rw [if_neg (by
          intro hc
          exact hp ⟨hc.1.symm, hc.2.symm⟩)]
      by_cases hr : ∃ q ∈ rest, i32AsU8 q.x = a ∧ i32AsU8 q.y = b
      · rw [if_pos hr, hcp,
          if_pos (by
            obtain ⟨q, hq1, hq2⟩ := hr
            exact ⟨q, List.mem_cons_of_mem p hq1, hq2⟩)]
      · rw [if_neg hr, hcp, if_neg (by
          rintro ⟨q, hq1, hq2⟩
          rcases List.mem_cons.mp hq1 with rfl | hq1
          · exact hp hq2
          · exact hr ⟨q, hq1, hq2⟩)]

theorem foldl_clearCellAt_meta (l : List GridVec) (c : ChunkCtx) :
    (l.foldl ChunkCtx.clearCellAt c).update_this_frame = c.update_this_frame ∧
    (l.foldl ChunkCtx.clearCellAt c).dirty = c.dirty := by
  induction l generalizing c with
  | nil => exact ⟨rfl, rfl⟩
  | cons p rest ih =>
    rw [List.foldl_cons]
    exact ih (ChunkCtx.clearCellAt c p)

theorem commit_updates_eq_of_union (c : ChunkCtx) (flips : Nat → Bool)
    (u : GridBounds)
    (hu : GridBounds.option_union c.dirty c.updated_last_frame = some u) :
    c.commit_updates flips =
      (slideIter u flips).foldl ChunkCtx.clearCellAt
        { c with update_this_frame := c.dirty, dirty := none } := by
  unfold ChunkCtx.commit_updates
  rw [hu]

/-- Concrete chunk context exercising `commit_updates`: every cell carries
    the already-moved bit, and the dirty rectangle is `(0,0)-(2,2)`. -/
def chunkC2 : ChunkCtx :=
  { cells := fun _ _ => ⟨.Air, 128⟩, nbr := fun _ => false,
    dirty := some ⟨⟨0, 0⟩, ⟨2, 2⟩⟩, update_this_frame := none,
    updated_last_frame := none }

/-- C2 (counterexample): the slide walk of `commit_updates` covers only the
    half-open interior of the union rectangle, so cells on the inclusive
    rectangle's top row and rightmost column keep their already-moved bit.
    With dirty rectangle `(0,0)-(2,2)`, the contained cell `(2,2)` still has
    its bit set after the commit. -/
theorem c2_commit_misses_union_edge :
    GridBounds.option_union chunkC2.dirty chunkC2.updated_last_frame
        = some ⟨⟨0, 0⟩, ⟨2, 2⟩⟩ ∧
    GridBounds.contains ⟨⟨0, 0⟩, ⟨2, 2⟩⟩ ⟨2, 2⟩ = true ∧
    ((chunkC2.commit_updates fun _ => false).cells 2 2).updated_this_frame
        = true := by
  refine ⟨rfl, by decide, ?_⟩
  rw [commit_updates_eq_of_union chunkC2 (fun _ => false) ⟨⟨0, 0⟩, ⟨2, 2⟩⟩ rfl,
    foldl_clearCellAt_cells, slideIter_eq_spec _ _ (by decide),
    if_neg (by decide)]
  decide

/-- C2: `commit_updates` rotates the dirty rectangle into
    `update_this_frame`, clears `dirty`, and clears the already-moved bit on
    every cell of the half-open interior of the union of the new
    `update_this_frame` and `updated_last_frame` (for union bounds within
    the `u8` coordinate range); the union's inclusive top row and rightmost
    column are not visited by the slide walk. -/
theorem c2_commit_rotates_and_clears_half_open_interior
    (c : ChunkCtx) (flips : Nat → Bool) (u : GridBounds) (x y : Int)
    (hu : GridBounds.option_union c.dirty c.updated_last_frame = some u)
    (hx0 : 0 ≤ u.bottom_left.x) (hx1 : u.top_right.x ≤ 256)
    (hy0 : 0 ≤ u.bottom_left.y) (hy1 : u.top_right.y ≤ 256)
    (hbx : u.bottom_left.x ≤ x) (hxt : x < u.top_right.x)
    (hby : u.bottom_left.y ≤ y) (hyt : y < u.top_right.y) :
    (c.commit_updates flips).update_this_frame = c.dirty ∧
    (c.commit_updates flips).dirty = none ∧
    ((c.commit_updates flips).cells x y).updated_this_frame = false := by
  have hx : u.bottom_left.x < u.top_right.x := lt_of_le_of_lt hbx hxt
  have hy : u.bottom_left.y < u.top_right.y := lt_of_le_of_lt hby hyt
  rw [commit_updates_eq_of_union c flips u hu]
  refine ⟨(foldl_clearCellAt_meta _ _).1, (foldl_clearCellAt_meta _ _).2, ?_⟩
  have hmem : ∃ p ∈ slideIter u flips, i32AsU8 p.x = x ∧ i32AsU8 p.y = y := by
    refine ⟨⟨x, y⟩, ?_, ?_, ?_⟩
    · rw [slideIter_eq_spec u flips hx]
      exact (mem_slideSpec u flips hx hy ⟨x, y⟩).mpr ⟨hbx, hxt, hby, hyt⟩
    · show i32AsU8 x = x
      unfold i32AsU8
      omega
    · show i32AsU8 y = y
      unfold i32AsU8
      omega
  rw [foldl_clearCellAt_cells, if_pos hmem]
  exact updated_of_set_false _

/-- Witness for C2 at `chunkC2` and interior cell `(1,1)`. -/
theorem c2_commit_rotates_and_clears_half_open_interior_witness :
    (GridBounds.option_union chunkC2.dirty chunkC2.updated_last_frame
        = some ⟨⟨0, 0⟩, ⟨2, 2⟩⟩ ∧ (0 : Int) ≤ 0 ∧ (2 : Int) ≤ 256 ∧
      (0 : Int) ≤ 1 ∧ (1 : Int) < 2) ∧
    ((chunkC2.commit_updates fun _ => false).update_this_frame
        = chunkC2.dirty ∧
     (chunkC2.commit_updates fun _ => false).dirty = none ∧
     ((chunkC2.commit_updates fun _ => false).cells 1 1).updated_this_frame
        = false) :=
  ⟨⟨rfl, by decide, by decide, by decide, by decide⟩,
   c2_commit_rotates_and_clears_half_open_interior chunkC2 (fun _ => false)
     ⟨⟨0, 0⟩, ⟨2, 2⟩⟩ 1 1 rfl (by decide) (by decide) (by decide) (by decide)
     (by decide) (by decide) (by decide) (by decide)⟩

/-! ### sandworld/src/chunk.rs — chunk compression

`Chunk::compress` and `CompressedChunk::decompress` are embedded over the
row-major particle list of the chunk (`self.particles`, 64*64 = 4096 cells;
`part_data_vec` and all the loops traverse it in index order).  The seen-set
of the distinct-count pass is a deduplicated list; the `HashMap`s of the
run-length coder are association lists (insertion order does not affect any
lookup the code performs, and ids are assigned uniquely).  An out-of-bounds
array index or a missing `HashMap` key — a panic in the source — decompresses
to `none`. -/

instance : Inhabited Particle := ⟨⟨.Air, 0⟩⟩

/-- State of the run-length encoder loop in `Chunk::compress`. -/
structure RleState where
  map : List (Particle × Nat)
  next_id : Nat
  data : List (Nat × Nat)
  run_part : Particle
  run_len : Nat

/-- `map.contains_key` / `map[&part]` of the encoder (`HashMap<Particle, u8>`). -/
def mapFind : List (Particle × Nat) → Particle → Option Nat
  | [], _ => none
  | (q, i) :: rest, p => if p = q then some i else mapFind rest p

/-- `flipmap[id]` of the decoder (`HashMap<u8, Particle>`, inverted map). -/
def lookupId : List (Particle × Nat) → Nat → Option Particle
  | [], _ => none
  | (q, j) :: rest, i => if i = j then some q else lookupId rest i

/-- One iteration of the encoder loop body over the current particle. -/
def rleStep (s : RleState) (cur : Particle) : RleState :=
  if cur = s.run_part ∧ s.run_len < 255 then
    { s with run_len := s.run_len + 1 }
  else if 0 < s.run_len then
    match mapFind s.map s.run_part with
    | some id =>
        { s with data := s.data ++ [(id, s.run_len)],
                 run_part := cur, run_len := 1 }
    | none =>
        { map := s.map ++ [(s.run_part, s.next_id)],
          next_id := s.next_id + 1,
          data := s.data ++ [(s.next_id, s.run_len)],
          run_part := cur, run_len := 1 }
  else
    { s with run_part := cur, run_len := 1 }

/-- The final-run flush after the encoder loop (no `next_id` bump: the map
    is not consulted again). -/
def rleFinish (s : RleState) : List (Particle × Nat) × List (Nat × Nat) :=
  match mapFind s.map s.run_part with
  | some id => (s.map, s.data ++ [(id, s.run_len)])
  | none => (s.map ++ [(s.run_part, s.next_id)],
             s.data ++ [(s.next_id, s.run_len)])

/-- The run-length coder of `Chunk::compress`: initial run is
    `Particle::new(ParticleType::Air)` with length 0, first id is 1. -/
def rleCompress (particles : List Particle) :
    List (Particle × Nat) × List (Nat × Nat) :=
  rleFinish (particles.foldl rleStep ⟨[], 1, [], ⟨.Air, 0⟩, 0⟩)

/-- Expansion of run-length data (the write loop of the `RunLength` arm of
    `decompress`, which writes the raw particles with no bit fixup);
    a missing id is the source's `map[id]` panic. -/
def rleExpand (m : List (Particle × Nat)) : List (Nat × Nat) → Option (List Particle)
  | [] => some []
  | (id, len) :: rest =>
      match lookupId m id, rleExpand m rest with
      | some p, some tail => some (List.replicate len p ++ tail)
      | _, _ => none

/-- `CompressedParticleData`. -/
inductive CompressedParticleData where
  | Monotype (part : Particle)
  | RunLength (map : List (Particle × Nat)) (data : List (Nat × Nat))
  | Uncompressed (data : List Particle)
deriving DecidableEq

/-- `Chunk::compress` over the row-major particle list: count distinct
    particles; 1 distinct → `Monotype` of `particles[0]`; fewer than 16 →
    `RunLength`; otherwise `Uncompressed` of `part_data_vec`. -/
def compress (particles : List Particle) : CompressedParticleData :=
  if particles.dedup.length = 1 then .Monotype particles.headI
  else if particles.dedup.length < 16 then
    .RunLength (rleCompress particles).1 (rleCompress particles).2
  else .Uncompressed particles

/-- `CompressedChunk::decompress` over the row-major list of the fresh
    4096-cell chunk (`Particle::default()` = Air, data 0).  The `Monotype`
    and `Uncompressed` arms write through `set_particle_sloppy`, which
    sets the updated-this-frame bit on what it writes; the `RunLength` arm
    writes the raw particles, leaving unwritten tail cells at the default.
    `none` is an index/keying panic in the source. -/
def decompress : CompressedParticleData → Option (List Particle)
  | .Monotype part => some (List.replicate 4096 (part.set_updated_this_frame true))
  | .Uncompressed data =>
      if 4096 ≤ data.length then
        some ((data.take 4096).map fun p => p.set_updated_this_frame true)
      else none
  | .RunLength m d =>
      match rleExpand m d with
      | some e =>
          if e.length ≤ 4096 then
            some (e ++ List.replicate (4096 - e.length) ⟨.Air, 0⟩)
          else none
      | none => none

/-- Roundtrip preserves the particle type and the low seven data bits. -/
def sameUnderUpdated (a b : Particle) : Prop :=
  a.particle_type = b.particle_type ∧ a.data &&& 127 = b.data &&& 127

theorem mapFind_append (m m' : List (Particle × Nat)) (p : Particle) :
    mapFind (m ++ m') p =
      match mapFind m p with
      | some i => some i
      | none => mapFind m' p := by
  induction m with
  | nil => simp [mapFind]
  | cons q rest ih =>
    obtain ⟨a, b⟩ := q
    by_cases hq : p = a <;> simp [mapFind, hq, ih]

theorem lookupId_append (m m' : List (Particle × Nat)) (i : Nat) :
    lookupId (m ++ m') i =
      match lookupId m i with
      | some p => some p
      | none => lookupId m' i := by
  induction m with
  | nil => simp [lookupId]
  | cons q rest ih =>
    obtain ⟨a, b⟩ := q
    by_cases hq : i = b <;> simp [lookupId, hq, ih]

theorem lookupId_append_of_some (m m' : List (Particle × Nat)) (i : Nat)
    (p : Particle) (h : lookupId m i = some p) :
    lookupId (m ++ m') i = some p := by
  rw [lookupId_append, h]

theorem lookupId_fresh (m : List (Particle × Nat)) (n : Nat)
    (h : ∀ q ∈ m, q.2 < n) : lookupId m n = none := by
  induction m with
  | nil => rfl
  | cons q rest ih =>
    obtain ⟨a, b⟩ := q
    have hb : b < n := h (a, b) (List.mem_cons_self _ _)
    have hne : ¬(n = b) := by omega
    simp only [lookupId, if_neg hne]
    exact ih fun q hq => h q (List.mem_cons_of_mem _ hq)

theorem rleExpand_cons (m : List (Particle × Nat)) (id len : Nat)
    (rest : List (Nat × Nat)) :
    rleExpand m ((id, len) :: rest) =
      match lookupId m id, rleExpand m rest with
      | some p, some tail => some (List.replicate len p ++ tail)
      | _, _ => none := rfl

theorem rleExpand_mono (m m' : List (Particle × Nat)) (d : List (Nat × Nat))
    (e : List Particle) (h : rleExpand m d = some e) :
    rleExpand (m ++ m') d = some e := by
  induction d generalizing e with
  | nil => simpa [rleExpand] using h
  | cons x rest ih =>
    obtain ⟨id, len⟩ := x
    rw [rleExpand_cons] at h ⊢
    cases hl : lookupId m id with
    | none => rw [hl] at h; simp at h
    | some p =>
      cases he : rleExpand m rest with
      | none => rw [hl, he] at h; simp at h
      | some tail =>
        rw [hl, he] at h
        simp only at h
        rw [lookupId_append_of_some m m' id p hl, ih tail he]
        simp only
        exact h

theorem rleExpand_snoc (m : List (Particle × Nat)) (d : List (Nat × Nat))
    (id len : Nat) (e : List Particle) (p : Particle)
    (hd : rleExpand m d = some e) (hp : lookupId m id = some p) :
    rleExpand m (d ++ [(id, len)]) = some (e ++ List.replicate len p) := by
  induction d generalizing e with
  | nil =>
    simp only [rleExpand, Option.some.injEq] at hd
    subst hd
    rw [List.nil_append, rleExpand_cons, hp]
    simp [rleExpand]
  | cons x rest ih =>
    obtain ⟨i2, l2⟩ := x
    rw [rleExpand_cons] at hd
    cases hl : lookupId m i2 with
    | none => rw [hl] at hd; simp at hd
    | some q =>
      cases he : rleExpand m rest with
      | none => rw [hl, he] at hd; simp at hd
      | some tail =>
        rw [hl, he] at hd
        simp only [Option.some.injEq] at hd
        rw [List.cons_append, rleExpand_cons, hl, ih tail he]
        simp only [Option.some.injEq]
        rw [← hd]
        simp [List.append_assoc]

/-- Loop invariant of the run-length encoder: over the consumed prefix
    `pre`, ids in the map are below `next_id`, particle→id and id→particle
    lookups agree, and the pushed data expands to `pre` minus the open run. -/
def RleInv (s : RleState) (pre : List Particle) : Prop :=
  (∀ q ∈ s.map, q.2 < s.next_id) ∧
  (∀ p i, mapFind s.map p = some i → lookupId s.map i = some p) ∧
  (∃ e, rleExpand s.map s.data = some e ∧
    e ++ List.replicate s.run_len s.run_part = pre)

theorem rleStep_inv (s : RleState) (pre : List Particle) (cur : Particle)
    (h : RleInv s pre) : RleInv (rleStep s cur) (pre ++ [cur]) := by
  obtain ⟨h1, h2, e, he, hpre⟩ := h
  unfold rleStep
  by_cases hA : cur = s.run_part ∧ s.run_len < 255
  · rw [if_pos hA]
    refine ⟨h1, h2, e, he, ?_⟩
    rw [List.replicate_succ', ← List.append_assoc, hpre, hA.1]
  · rw [if_neg hA]
    by_cases hB : 0 < s.run_len
    · rw [if_pos hB]
      cases hf : mapFind s.map s.run_part with
      | some id =>
        refine ⟨h1, h2, e ++ List.replicate s.run_len s.run_part, ?_, ?_⟩
        · exact rleExpand_snoc s.map s.data id s.run_len e s.run_part he
            (h2 _ _ hf)
        · rw [hpre]
          simp
      | none =>
        refine ⟨?_, ?_, e ++ List.replicate s.run_len s.run_part, ?_, ?_⟩
        · intro q hq
          rcases List.mem_append.mp hq with hq | hq
          · exact Nat.lt_succ_of_lt (h1 q hq)
          · simp at hq
            rw [hq]
            exact Nat.lt_succ_self _
        · intro p i hpi
          rw [mapFind_append] at hpi
          cases hm : mapFind s.map p with
          | some j =>
            rw [hm] at hpi
            simp only [Option.some.injEq] at hpi
            subst hpi
            exact lookupId_append_of_some _ _ _ _ (h2 _ _ hm)
          | none =>
            rw [hm] at hpi
            simp only [mapFind] at hpi
            by_cases hp : p = s.run_part
            · rw [if_pos hp] at hpi
              simp only [Option.some.injEq] at hpi
              subst hpi
              rw [lookupId_append, lookupId_fresh s.map s.next_id h1]
              simp [lookupId, hp]
            · rw [if_neg hp] at hpi
              cases hpi
        · refine rleExpand_snoc _ _ _ _ _ _ (rleExpand_mono _ _ _ _ he) ?_
          rw [lookupId_append, lookupId_fresh s.map s.next_id h1]
          simp [lookupId]
        · rw [hpre]
          simp
    · rw [if_neg hB]
      have hz : s.run_len = 0 := by omega
      refine ⟨h1, h2, e, he, ?_⟩
      rw [hz] at hpre
      simp only [List.replicate, List.append_nil] at hpre
      rw [hpre]
      simp

theorem rleFoldl_inv (l : List Particle) (s : RleState) (pre : List Particle)
    (h : RleInv s pre) : RleInv (l.foldl rleStep s) (pre ++ l) := by
  induction l generalizing s pre with
  | nil => simpa using h
  | cons c rest ih =>
    rw [List.foldl_cons]
    have h2 := ih (rleStep s c) (pre ++ [c]) (rleStep_inv s pre c h)
    simpa [List.append_assoc] using h2

theorem rleFinish_some (s : RleState) (id : Nat)
    (h : mapFind s.map s.run_part = some id) :
    rleFinish s = (s.map, s.data ++ [(id, s.run_len)]) := by
  unfold rleFinish
  rw [h]

theorem rleFinish_none (s : RleState)
    (h : mapFind s.map s.run_part = none) :
    rleFinish s = (s.map ++ [(s.run_part, s.next_id)],
      s.data ++ [(s.next_id, s.run_len)]) := by
  unfold rleFinish
  rw [h]

theorem rleFinish_expand (s : RleState) (pre : List Particle)
    (h : RleInv s pre) :
    rleExpand (rleFinish s).1 (rleFinish s).2 = some pre := by
  obtain ⟨h1, h2, e, he, hpre⟩ := h
  cases hf : mapFind s.map s.run_part with
  | some id =>
    rw [rleFinish_some s id hf]
    rw [rleExpand_snoc s.map s.data id s.run_len e s.run_part he (h2 _ _ hf),
      hpre]
  | none =>
    rw [rleFinish_none s hf]
    have hl : lookupId (s.map ++ [(s.run_part, s.next_id)]) s.next_id
        = some s.run_part := by
      rw [lookupId_append, lookupId_fresh s.map s.next_id h1]
      simp [lookupId]
    rw [rleExpand_snoc _ _ _ _ _ _ (rleExpand_mono _ _ _ _ he) hl, hpre]

theorem rle_roundtrip (l : List Particle) :
    rleExpand (rleCompress l).1 (rleCompress l).2 = some l := by
  have h0 : RleInv ⟨[], 1, [], ⟨.Air, 0⟩, 0⟩ [] := by
    refine ⟨?_, ?_, [], rfl, rfl⟩
    · intro q hq
      simp at hq
    · intro p i hpi
      simp [mapFind] at hpi
  have h := rleFoldl_inv l ⟨[], 1, [], ⟨.Air, 0⟩, 0⟩ [] h0
  rw [List.nil_append] at h
  exact rleFinish_expand _ l h

theorem or128_and_127 (a : Nat) : (a ||| 128) &&& 127 = a &&& 127 := by
  apply Nat.eq_of_testBit_eq
  intro i
  rw [Nat.testBit_and, Nat.testBit_and, Nat.testBit_or]
  rcases Nat.lt_or_ge i 7 with hi | hi
  · have h1 : Nat.testBit 128 i = false := by
      rw [show (128 : Nat) = 2 ^ 7 by norm_num, Nat.testBit_two_pow]
      simp only [decide_eq_false_iff_not]
      omega
    rw [h1]
    simp
  · have h2 : Nat.testBit 127 i = false := by
      rw [show (127 : Nat) = 2 ^ 7 - 1 by norm_num,
        Nat.testBit_two_pow_sub_one]
      simp only [decide_eq_false_iff_not]
      omega
    rw [h2]
    simp

theorem sameUnderUpdated_set_true (p : Particle) :
    sameUnderUpdated (p.set_updated_this_frame true) p :=
  ⟨rfl, or128_and_127 p.data⟩

theorem forall2_replicate_of_all_eq (l : List Particle) (b a : Particle)
    (hall : ∀ x ∈ l, x = a) (hba : sameUnderUpdated b a) :
    List.Forall₂ sameUnderUpdated (List.replicate l.length b) l := by
  induction l with
  | nil => exact List.Forall₂.nil
  | cons x rest ih =>
    rw [List.length_cons, List.replicate_succ]
    refine List.Forall₂.cons ?_ (ih fun y hy => hall y (List.mem_cons_of_mem _ hy))
    rw [hall x (List.mem_cons_self x rest)]
    exact hba

theorem forall2_map_set_true (l : List Particle) :
    List.Forall₂ sameUnderUpdated
      (l.map fun p => p.set_updated_this_frame true) l := by
  induction l with
  | nil => exact List.Forall₂.nil
  | cons x rest ih => exact List.Forall₂.cons (sameUnderUpdated_set_true x) ih

theorem dedup_replicate_succ (n : Nat) (a : Particle) :
    (List.replicate (n + 1) a).dedup = [a] := by
  induction n with
  | zero =>
    rw [List.replicate_succ, List.replicate_zero,
      List.dedup_cons_of_not_mem (by simp), List.dedup_nil]
  | succ k ih =>
    rw [List.replicate_succ, List.dedup_cons_of_mem, ih]
    simp [List.mem_replicate]

/-- C6 (counterexample): an all-Air chunk (data byte 0 in every cell)
    compresses to `Monotype` and decompresses through
    `set_particle_sloppy`, which forces the updated-this-frame bit on:
    every cell comes back with data byte 128, not the original 0. -/
theorem c6_monotype_forces_updated_bit :
    compress (List.replicate 4096 ⟨.Air, 0⟩) = .Monotype ⟨.Air, 0⟩ ∧
    decompress (compress (List.replicate 4096 ⟨.Air, 0⟩))
      = some (List.replicate 4096 ⟨.Air, 128⟩) ∧
    (⟨.Air, 128⟩ : Particle) ≠ ⟨.Air, 0⟩ := by
  have hd : (List.replicate 4096 (⟨.Air, 0⟩ : Particle)).dedup
      = [⟨.Air, 0⟩] := dedup_replicate_succ 4095 _
  have hc : compress (List.replicate 4096 ⟨.Air, 0⟩)
      = .Monotype ⟨.Air, 0⟩ := by
    unfold compress
    rw [hd]
    rw [if_pos (by simp), show (4096 : Nat) = 4095 + 1 by norm_num,
      List.replicate_succ]
    rfl
  refine ⟨hc, ?_, by decide⟩
  rw [hc]
  unfold decompress
  rfl

/-- C6: decompressing the compressor's output preserves, cell for cell, the
    particle type and the low seven data bits; in the `RunLength` case the
    cells come back exactly equal, while the `Monotype` and `Uncompressed`
    arms write through `set_particle_sloppy` and force the
    updated-this-frame bit (bit 7) on in every cell. -/
theorem c6_roundtrip_characterization (particles : List Particle)
    (h : particles.length = 4096) :
    ∃ out, decompress (compress particles) = some out ∧
      List.Forall₂ sameUnderUpdated out particles ∧
      (∀ m d, compress particles = .RunLength m d → out = particles) := by
  unfold compress
  by_cases h1 : particles.dedup.length = 1
  · rw [if_pos h1]
    obtain ⟨a, ha⟩ := List.length_eq_one.mp h1
    have hall : ∀ x ∈ particles, x = a := fun x hx =>
      List.mem_singleton.mp (ha ▸ List.mem_dedup.mpr hx)
    have hne : particles ≠ [] := by
      intro hnil
      rw [hnil] at h
      simp at h
    have hhead : particles.headI = a := by
      cases hps : particles with
      | nil => exact absurd hps hne
      | cons p0 rest =>
        exact hall p0 (by rw [hps]; exact List.mem_cons_self p0 rest)
    refine ⟨_, rfl, ?_, ?_⟩
    · rw [show (4096 : Nat) = particles.length from h.symm, hhead]
      exact forall2_replicate_of_all_eq particles _ a hall
        (sameUnderUpdated_set_true a)
    · intro m d hmd
      cases hmd
  · rw [if_neg h1]
    by_cases h2 : particles.dedup.length < 16
    · rw [if_pos h2]
      refine ⟨particles, ?_, ?_, fun m d _ => rfl⟩
      · simp only [decompress]
        rw [rle_roundtrip particles]
        simp only
        rw [if_pos (by omega), h]
        simp
      · exact List.forall₂_same.mpr fun x _ => ⟨rfl, rfl⟩
    · rw [if_neg h2]
      refine ⟨particles.map fun p => p.set_updated_this_frame true, ?_, ?_, ?_⟩
      · simp only [decompress]
        rw [if_pos (le_of_eq h.symm), List.take_of_length_le (le_of_eq h)]
      · exact forall2_map_set_true particles
      · intro m d hmd
        cases hmd

/-- Witness for C6 at an all-Stone chunk. -/
theorem c6_roundtrip_characterization_witness :
    (List.replicate 4096 (⟨.Stone, 0⟩ : Particle)).length = 4096 ∧
    (∃ out,
      decompress (compress (List.replicate 4096 ⟨.Stone, 0⟩)) = some out ∧
      List.Forall₂ sameUnderUpdated out (List.replicate 4096 ⟨.Stone, 0⟩) ∧
      (∀ m d,
        compress (List.replicate 4096 ⟨.Stone, 0⟩) = .RunLength m d →
          out = List.replicate 4096 ⟨.Stone, 0⟩)) :=
  ⟨by rw [List.length_replicate],
   c6_roundtrip_characterization (List.replicate 4096 ⟨.Stone, 0⟩)
    (by rw [List.length_replicate])⟩

/-! ### sandworld/src/region.rs + sandworld.rs — the update scheduler

`World::update` pushes every loaded region into a `BinaryHeap` keyed by
`update_priority + visible_boost` and pops greedily.  The heap is embedded
as the region list itself with `popMaxIdx`, which removes a maximal-key
element (ties resolved toward the front; the source heap's tie order is
likewise unspecified).  `u64` arithmetic carries explicit `% 2^64`.  The
loop is embedded with an explicit fuel that starts at the heap size; one
element leaves the heap per iteration, so the fuel never runs out before
the heap empties. -/

def REGION_SIZE : Int := 16

/-- Scheduling-relevant state of `Region` (`u64` counters as naturals). -/
structure Region where
  position : GridVec
  staleness : Nat
  last_chunk_updates : Nat
  update_priority : Nat
deriving DecidableEq, Repr

/-- `Region::calc_update_priority`. -/
def Region.calc_update_priority (r : Region) : Region :=
  { r with update_priority :=
      ((r.staleness + 1) * (r.staleness + 1) * (r.last_chunk_updates + 1))
        % 2 ^ 64 }

/-- `Region::get_bounds`. -/
def Region.get_bounds (r : Region) : GridBounds :=
  GridBounds.new_from_corner ((r.position.muls CHUNK_SIZE).muls REGION_SIZE)
    ⟨CHUNK_SIZE * REGION_SIZE, CHUNK_SIZE * REGION_SIZE⟩

/-- `World::get_chunkpos` (bias-then-truncating-divide). -/
def get_chunkpos (pos : GridVec) : GridVec :=
  ⟨Int.tdiv (if pos.x < 0 then pos.x - (CHUNK_SIZE - 1) else pos.x) CHUNK_SIZE,
   Int.tdiv (if pos.y < 0 then pos.y - (CHUNK_SIZE - 1) else pos.y) CHUNK_SIZE⟩

/-- `World::get_regionpos_for_chunkpos`. -/
def get_regionpos_for_chunkpos (chunkpos : GridVec) : GridVec :=
  ⟨Int.tdiv (if chunkpos.x < 0 then chunkpos.x - (REGION_SIZE - 1) else chunkpos.x)
      REGION_SIZE,
   Int.tdiv (if chunkpos.y < 0 then chunkpos.y - (REGION_SIZE - 1) else chunkpos.y)
      REGION_SIZE⟩

/-- `World::get_regionpos_for_pos`. -/
def get_regionpos_for_pos (pos : GridVec) : GridVec :=
  get_regionpos_for_chunkpos (get_chunkpos pos)

/-- The `visible_regions` rectangle of `World::update`. -/
def visibleRegions (visible : GridBounds) : GridBounds :=
  GridBounds.new_from_extents
    (get_regionpos_for_pos visible.bottom_left)
    ((get_regionpos_for_pos visible.top_right).addv ⟨1, 1⟩)

/-- `visible_boost_per_region` (`65536 / visible_region_count`, `usize`
    division cast to `u64`). -/
def visibleBoost (visible : GridBounds) : Nat :=
  65536 / (visibleRegions visible).area

/-- The key a region is pushed into the heap with. -/
def schedKey (visible : GridBounds) (r : Region) : Nat :=
  (r.update_priority +
    if r.get_bounds.overlaps visible = true then visibleBoost visible else 0)
    % 2 ^ 64

/-- Remove one maximal-key element from the list (the `BinaryHeap` pop). -/
def popMaxIdx (key : Region → Nat) : List Region → Option (Region × List Region)
  | [] => none
  | r :: rest =>
      match popMaxIdx key rest with
      | none => some (r, [])
      | some (m, rem) =>
          if key m ≤ key r then some (r, rest) else some (m, r :: rem)

/-- The running-estimate accumulation of the pop loop
    (`estimated_chunk_updates += region.last_chunk_updates`). -/
def sumFrom (est : Nat) (l : List Region) : Nat :=
  l.foldl (fun e r => (e + r.last_chunk_updates) % 2 ^ 64) est

/-- The pop loop of `World::update`: while the heap is nonempty, the
    estimate is below target and fewer than 16 regions are listed, pop the
    max and accumulate its `last_chunk_updates`.  Returns
    (to_update, to_skip, estimated_chunk_updates). -/
def schedLoopF (key : Region → Nat) (target : Nat) :
    Nat → List Region → Nat → List Region → List Region × List Region × Nat
  | 0, heap, est, upd => (upd, heap, est)
  | fuel + 1, heap, est, upd =>
      if est < target ∧ upd.length < 16 then
        match popMaxIdx key heap with
        | some (m, rem) =>
            schedLoopF key target fuel rem
              ((est + m.last_chunk_updates) % 2 ^ 64) (upd ++ [m])
        | none => (upd, heap, est)
      else (upd, heap, est)

/-- The scheduling portion of `World::update` over the loaded-region list. -/
def worldUpdateSchedule (regions : List Region) (visible : GridBounds)
    (target : Nat) : List Region × List Region × Nat :=
  schedLoopF (schedKey visible) target regions.length regions 0 []

theorem popMaxIdx_none (key : Region → Nat) (l : List Region)
    (h : popMaxIdx key l = none) : l = [] := by
  cases l with
  | nil => rfl
  | cons r rest =>
    cases hp : popMaxIdx key rest with
    | none =>
      simp only [popMaxIdx, hp] at h
      exact Option.noConfusion h
    | some pm =>
      obtain ⟨m, rem⟩ := pm
      simp only [popMaxIdx, hp] at h
      by_cases hk : key m ≤ key r
      · rw [if_pos hk] at h; cases h
      · rw [if_neg hk] at h; cases h

theorem popMaxIdx_length (key : Region → Nat) (l : List Region) (m : Region)
    (rem : List Region) (h : popMaxIdx key l = some (m, rem)) :
    rem.length + 1 = l.length := by
  induction l generalizing m rem with
  | nil => cases h
  | cons r rest ih =>
    cases hp : popMaxIdx key rest with
    | none =>
      have hnil := popMaxIdx_none key rest hp
      simp only [popMaxIdx, hp, Option.some.injEq, Prod.mk.injEq] at h
      rw [← h.2, hnil]
      simp
    | some pm =>
      obtain ⟨m', rem'⟩ := pm
      simp only [popMaxIdx, hp] at h
      have hlen := ih m' rem' hp
      by_cases hk : key m' ≤ key r
      · rw [if_pos hk] at h
        simp only [Option.some.injEq, Prod.mk.injEq] at h
        rw [← h.2]
        rfl
      · rw [if_neg hk] at h
        simp only [Option.some.injEq, Prod.mk.injEq] at h
        rw [← h.2]
        simp only [List.length_cons]
        omega

theorem popMaxIdx_perm (key : Region → Nat) (l : List Region) (m : Region)
    (rem : List Region) (h : popMaxIdx key l = some (m, rem)) :
    l.Perm (m :: rem) := by
  induction l generalizing m rem with
  | nil => cases h
  | cons r rest ih =>
    cases hp : popMaxIdx key rest with
    | none =>
      have hnil := popMaxIdx_none key rest hp
      simp only [popMaxIdx, hp, Option.some.injEq, Prod.mk.injEq] at h
      rw [hnil, ← h.1, ← h.2]
    | some pm =>
      obtain ⟨m', rem'⟩ := pm
      simp only [popMaxIdx, hp] at h
      have hperm := ih m' rem' hp
      by_cases hk : key m' ≤ key r
      · rw [if_pos hk] at h
        simp only [Option.some.injEq, Prod.mk.injEq] at h
        rw [← h.1, ← h.2]
      · rw [if_neg hk] at h
        simp only [Option.some.injEq, Prod.mk.injEq] at h
        rw [← h.1, ← h.2]
        exact (List.Perm.cons r hperm).trans (List.Perm.swap m' r rem')

theorem popMaxIdx_max (key : Region → Nat) (l : List Region) (m : Region)
    (rem : List Region) (h : popMaxIdx key l = some (m, rem)) :
    ∀ x ∈ l, key x ≤ key m := by
  induction l generalizing m rem with
  | nil => cases h
  | cons r rest ih =>
    cases hp : popMaxIdx key rest with
    | none =>
      have hnil := popMaxIdx_none key rest hp
      simp only [popMaxIdx, hp, Option.some.injEq, Prod.mk.injEq] at h
      intro x hx
      rw [hnil] at hx
      simp at hx
      rw [hx, ← h.1]
    | some pm =>
      obtain ⟨m', rem'⟩ := pm
      simp only [popMaxIdx, hp] at h
      have hmax := ih m' rem' hp
      intro x hx
      by_cases hk : key m' ≤ key r
      · rw [if_pos hk] at h
        simp only [Option.some.injEq, Prod.mk.injEq] at h
        rw [← h.1]
        rcases List.mem_cons.mp hx with rfl | hx
        · exact Nat.le_refl _
        · exact Nat.le_trans (hmax x hx) hk
      · rw [if_neg hk] at h
        simp only [Option.some.injEq, Prod.mk.injEq] at h
        rw [← h.1]
        rcases List.mem_cons.mp hx with rfl | hx
        · exact Nat.le_of_lt (Nat.lt_of_not_le hk)
        · exact hmax x hx

theorem schedLoopF_spec (key : Region → Nat) (target : Nat) (fuel : Nat) :
    ∀ (heap : List Region), heap.length = fuel →
    ∀ (est : Nat) (upd updF skipF : List Region) (estF : Nat),
      schedLoopF key target fuel heap est upd = (updF, skipF, estF) →
      ∃ new, updF = upd ++ new ∧ (new ++ skipF).Perm heap ∧
        estF = sumFrom est new ∧
        List.Pairwise (fun a b => key b ≤ key a) new ∧
        (∀ s ∈ skipF, ∀ u ∈ new, key s ≤ key u) ∧
        (∀ k, k < new.length →
          sumFrom est (new.take k) < target ∧ upd.length + k < 16) ∧
        (skipF ≠ [] → ¬(estF < target ∧ updF.length < 16)) := by
  induction fuel with
  | zero =>
    intro heap hlen est upd updF skipF estF h
    have hheap : heap = [] := List.length_eq_zero.mp hlen
    simp only [schedLoopF, Prod.mk.injEq] at h
    obtain ⟨h1, h2, h3⟩ := h
    refine ⟨[], by rw [← h1]; simp, ?_, by rw [← h3]; rfl, List.Pairwise.nil,
      ?_, ?_, ?_⟩
    · rw [← h2, hheap]
      exact List.Perm.nil
    · intro s hs u hu
      simp at hu
    · intro k hk
      simp at hk
    · intro hne
      rw [← h2, hheap] at hne
      exact absurd rfl hne
  | succ fuel ih =>
    intro heap hlen est upd updF skipF estF h
    by_cases hc : est < target ∧ upd.length < 16
    · cases hp : popMaxIdx key heap with
      | none =>
        have hheap : heap = [] := popMaxIdx_none key heap hp
        simp only [schedLoopF, if_pos hc, hp, Prod.mk.injEq] at h
        obtain ⟨h1, h2, h3⟩ := h
        refine ⟨[], by rw [← h1]; simp, ?_, by rw [← h3]; rfl,
          List.Pairwise.nil, ?_, ?_, ?_⟩
        · rw [← h2, hheap]
          exact List.Perm.nil
        · intro s hs u hu
          simp at hu
        · intro k hk
          simp at hk
        · intro hne
          rw [← h2, hheap] at hne
          exact absurd rfl hne
      | some pm =>
        obtain ⟨m, rem⟩ := pm
        simp only [schedLoopF, if_pos hc, hp] at h
        have hlen2 : rem.length = fuel := by
          have := popMaxIdx_length key heap m rem hp
          omega
        obtain ⟨new', hupd, hperm, hest, hpw, hsk, hpre, hstop⟩ :=
          ih rem hlen2 ((est + m.last_chunk_updates) % 2 ^ 64) (upd ++ [m])
            updF skipF estF h
        have hmemrem : ∀ x, x ∈ new' ++ skipF → key x ≤ key m := fun x hx =>
          popMaxIdx_max key heap m rem hp x
            ((popMaxIdx_perm key heap m rem hp).symm.subset
              (List.mem_cons_of_mem m (hperm.subset hx)))
        refine ⟨m :: new', ?_, ?_, ?_, ?_, ?_, ?_, hstop⟩
        · rw [hupd]
          simp
        · exact (List.Perm.cons m hperm).trans
            (popMaxIdx_perm key heap m rem hp).symm
        · rw [hest]
          rfl
        · exact List.Pairwise.cons
            (fun x hx => hmemrem x (List.mem_append_left skipF hx)) hpw
        · intro s hs u hu
          rcases List.mem_cons.mp hu with rfl | hu
          · exact hmemrem s (List.mem_append_right new' hs)
          · exact hsk s hs u hu
        · intro k hk
          cases k with
          | zero => exact ⟨hc.1, by omega⟩
          | succ j =>
            have hj : j < new'.length := by
              simp only [List.length_cons] at hk
              omega
            have := hpre j hj
            rw [List.length_append, List.length_singleton] at this
            refine ⟨?_, by omega⟩
            rw [List.take_succ_cons]
            exact this.1
    · simp only [schedLoopF, if_neg hc, Prod.mk.injEq] at h
      obtain ⟨h1, h2, h3⟩ := h
      refine ⟨[], by rw [← h1]; simp,
        by rw [← h2]; exact List.Perm.refl _, by rw [← h3]; rfl,
        List.Pairwise.nil, ?_, ?_, ?_⟩
      · intro s hs u hu
        simp at hu
      · intro k hk
        simp at hk
      · intro hne
        rw [← h3, ← h1]
        exact hc

/-- C7: the scheduling portion of `World::update`.  Regions are keyed by
    `update_priority` plus `65536 / visible_region_count` when their bounds
    overlap the visible rectangle (and `Region::calc_update_priority` sets
    `update_priority = (staleness+1)^2 * (last_chunk_updates+1)`); they are
    popped max-first into the to-update list, accumulating each popped
    region's `last_chunk_updates`, every pop happening while the estimate
    was below target and fewer than 16 regions were listed; popping stops
    exactly when the heap empties, the estimate reaches the target, or the
    list holds 16 regions, and every region left over is skipped. -/
theorem c7_update_scheduler_characterization
    (regions : List Region) (visible : GridBounds) (target : Nat)
    (upd skip : List Region) (est : Nat)
    (h : worldUpdateSchedule regions visible target = (upd, skip, est)) :
    (∀ r : Region, (r.calc_update_priority).update_priority
        = ((r.staleness + 1) ^ 2 * (r.last_chunk_updates + 1)) % 2 ^ 64) ∧
    (∀ r : Region, schedKey visible r
        = (r.update_priority +
            if r.get_bounds.overlaps visible = true
            then 65536 / (visibleRegions visible).area else 0) % 2 ^ 64) ∧
    (upd ++ skip).Perm regions ∧
    upd.length ≤ 16 ∧
    est = sumFrom 0 upd ∧
    List.Pairwise (fun a b => schedKey visible b ≤ schedKey visible a) upd ∧
    (∀ s ∈ skip, ∀ u ∈ upd, schedKey visible s ≤ schedKey visible u) ∧
    (∀ k, k < upd.length → sumFrom 0 (upd.take k) < target ∧ k < 16) ∧
    (skip ≠ [] → target ≤ est ∨ upd.length = 16) := by
  obtain ⟨new, hupd, hperm, hest, hpw, hsk, hpre, hstop⟩ :=
    schedLoopF_spec (schedKey visible) target regions.length regions rfl 0 []
      upd skip est h
  rw [List.nil_append] at hupd
  subst hupd
  have hlen16 : upd.length ≤ 16 := by
    by_contra hgt
    have h16 := (hpre 16 (by omega)).2
    simp only [List.length_nil] at h16
    omega
  refine ⟨?_, fun r => rfl, hperm, hlen16, hest, hpw, hsk, ?_, ?_⟩
  · intro r
    show ((r.staleness + 1) * (r.staleness + 1) * (r.last_chunk_updates + 1))
        % 2 ^ 64
      = ((r.staleness + 1) ^ 2 * (r.last_chunk_updates + 1)) % 2 ^ 64
    congr 1
    ring
  · intro k hk
    have := hpre k hk
    simp only [List.length_nil] at this
    exact ⟨this.1, by omega⟩
  · intro hne
    have hs := hstop hne
    rw [not_and_or] at hs
    rcases hs with h1 | h2
    · exact Or.inl (Nat.le_of_not_lt h1)
    · exact Or.inr (Nat.le_antisymm hlen16 (Nat.le_of_not_lt h2))

/-- Concrete regions and visible rectangle exercising the scheduler. -/
def c7r1 : Region := ⟨⟨0, 0⟩, 0, 5, 10⟩

def c7r2 : Region := ⟨⟨5, 5⟩, 1, 3, 99⟩

def c7vis : GridBounds := ⟨⟨0, 0⟩, ⟨63, 63⟩⟩

/-- Witness for C7: two regions, one visible-boosted, target estimate 4;
    the second pop is cut off by the reached target and the region is
    skipped. -/
theorem c7_update_scheduler_characterization_witness :
    worldUpdateSchedule [c7r1, c7r2] c7vis 4 = ([c7r1], [c7r2], 5) ∧
    ((∀ r : Region, (r.calc_update_priority).update_priority
        = ((r.staleness + 1) ^ 2 * (r.last_chunk_updates + 1)) % 2 ^ 64) ∧
     (∀ r : Region, schedKey c7vis r
        = (r.update_priority +
            if r.get_bounds.overlaps c7vis = true
            then 65536 / (visibleRegions c7vis).area else 0) % 2 ^ 64) ∧
     (([c7r1] ++ [c7r2]).Perm [c7r1, c7r2]) ∧
     ([c7r1]).length ≤ 16 ∧
     5 = sumFrom 0 [c7r1] ∧
     List.Pairwise (fun a b => schedKey c7vis b ≤ schedKey c7vis a) [c7r1] ∧
     (∀ s ∈ [c7r2], ∀ u ∈ [c7r1], schedKey c7vis s ≤ schedKey c7vis u) ∧
     (∀ k, k < ([c7r1]).length →
        sumFrom 0 (([c7r1]).take k) < 4 ∧ k < 16) ∧
     ([c7r2] ≠ [] → 4 ≤ 5 ∨ ([c7r1]).length = 16)) :=
  ⟨rfl,
   c7_update_scheduler_characterization [c7r1, c7r2] c7vis 4 [c7r1] [c7r2] 5
     rfl⟩

/-! ### sandworld/src/sandworld.rs — mutations outside the loaded world

The world's chunk storage is embedded by the *positions* of its loaded
regions, loading-queue entries and compressed regions; `Region::get_chunk_mut`
returns a chunk exactly when the region contains the chunk position, so
`World::get_chunk_mut` succeeds exactly when some loaded region's 16x16
chunk square contains the chunk position.  The cell write itself is not
represented; `replace_particle` returns the world state paired with the
chunk position written, or `none` for a `.unwrap()` panic. -/

structure WorldCtx where
  regions : List GridVec
  loading : List GridVec
  compressed : List GridVec
deriving DecidableEq, Repr

/-- `Region::contains_chunk` for the region at `regpos`. -/
def region_contains_chunk (regpos chunkpos : GridVec) : Bool :=
  decide (0 ≤ chunkpos.x - regpos.x * REGION_SIZE) &&
  decide (chunkpos.x - regpos.x * REGION_SIZE < REGION_SIZE) &&
  decide (0 ≤ chunkpos.y - regpos.y * REGION_SIZE) &&
  decide (chunkpos.y - regpos.y * REGION_SIZE < REGION_SIZE)

/-- `Region::contains_point`. -/
def region_contains_point (regpos pos : GridVec) : Bool :=
  region_contains_chunk regpos (get_chunkpos pos)

/-- `World::contains`. -/
def world_contains (w : WorldCtx) (pos : GridVec) : Bool :=
  w.regions.any fun rp => region_contains_point rp pos

/-- Whether `World::get_chunk_mut` returns `Some`. -/
def has_chunk (w : WorldCtx) (chunkpos : GridVec) : Bool :=
  w.regions.any fun rp => region_contains_chunk rp chunkpos

/-- `World::add_region`: if the region is already being loaded, nothing;
    otherwise a loader is queued (from the compressed store or a fresh
    generator) — in either case only the loading queue changes, never the
    live region list. -/
def add_region (w : WorldCtx) (regpos : GridVec) : WorldCtx :=
  if regpos ∈ w.loading then w
  else { w with loading := w.loading ++ [regpos] }

/-- `World::replace_particle` (the `add_particle`,
    `replace_particle_filtered` and `set_particle_temperature` entry points
    share the identical prologue): request the enclosing region if the
    position is not contained, then `.unwrap()` the chunk lookup and write.
    `none` is the unwrap panic. -/
def replace_particle (w : WorldCtx) (pos : GridVec) :
    Option (WorldCtx × GridVec) :=
  let w1 := if world_contains w pos = false then
      add_region w (get_regionpos_for_chunkpos (get_chunkpos pos))
    else w
  if has_chunk w1 (get_chunkpos pos) = true then some (w1, get_chunkpos pos)
  else none

theorem add_region_regions (w : WorldCtx) (regpos : GridVec) :
    (add_region w regpos).regions = w.regions := by
  unfold add_region
  by_cases h : regpos ∈ w.loading
  · rw [if_pos h]
  · rw [if_neg h]

/-- C1 (code bug): for a position whose enclosing chunk lies in no loaded
    region, `replace_particle` queues the enclosing region for loading and
    then panics on `.unwrap()` — `add_region` only enqueues an asynchronous
    loader and never adds to the live region list, so the immediately
    following `get_chunk_mut` still returns `None`.  The spec's claim that
    the write is dropped silently and the call never aborts does not hold. -/
theorem c1_replace_particle_panics_outside_loaded_world
    (w : WorldCtx) (pos : GridVec)
    (h : has_chunk w (get_chunkpos pos) = false) :
    replace_particle w pos = none ∧
    get_regionpos_for_chunkpos (get_chunkpos pos) ∈
      (add_region w (get_regionpos_for_chunkpos (get_chunkpos pos))).loading := by
  constructor
  · unfold replace_particle
    have hcont : world_contains w pos = false := h
    rw [hcont]
    simp only [eq_self_iff_true, if_true]
    have hchunk : has_chunk
        (add_region w (get_regionpos_for_chunkpos (get_chunkpos pos)))
        (get_chunkpos pos) = false := by
      unfold has_chunk
      rw [add_region_regions]
      exact h
    rw [if_neg (by rw [hchunk]; exact Bool.false_ne_true)]
  · unfold add_region
    by_cases hl : get_regionpos_for_chunkpos (get_chunkpos pos) ∈ w.loading
    · rw [if_pos hl]
      exact hl
    · rw [if_neg hl]
      simp

/-- Witness for C1: the empty world (no loaded, loading or compressed
    regions) and the origin. -/
theorem c1_replace_particle_panics_outside_loaded_world_witness :
    has_chunk ⟨[], [], []⟩ (get_chunkpos ⟨0, 0⟩) = false ∧
    (replace_particle ⟨[], [], []⟩ ⟨0, 0⟩ = none ∧
      get_regionpos_for_chunkpos (get_chunkpos ⟨0, 0⟩) ∈
        (add_region ⟨[], [], []⟩
          (get_regionpos_for_chunkpos (get_chunkpos ⟨0, 0⟩))).loading) :=
  ⟨rfl, c1_replace_particle_panics_outside_loaded_world ⟨[], [], []⟩ ⟨0, 0⟩ rfl⟩
